import Mathlib

/-!
Shallow embedding of `src/py_validator.py` (the matching engine `validate`
with its inner recursive function `sub`, and the descriptor classes
`Or`, `And`, `ListOf`, `Optional`, `ForceValue`, `Error`).

Python values and schema descriptors live in one universe (`PyObj`), as in
the source, where a scheme is itself a Python object.  User-supplied
predicate functions are represented by an abstract carrier type `F`
together with a semantics record `PredSem` giving the arity, the declared
name and the call behaviour (a call may raise, modelled by `Except`);
this mirrors the source's `funcInfo` introspection and the call
`exp( obj ) if nb == 1 else exp( path,obj )`.

Machine-level aspects deliberately modelled abstractly (none of them is
exercised by any theorem below at a point where the approximation
matters):
* Python `float` values are carried as rationals (`Rat`);
* the rendering of `'%s' % exp` in the `'!='` fallback message and the
  text of exception messages are produced by simple total functions;
* exception objects appearing as the third component of a `'failure'`
  diagnostic are carried as their message string (`PyObj.vexn`);
* hash-based containment (`key in obj`, `set(...) - set(...)`) is
  modelled by first-match lookup with Python equality, which is the
  observable behaviour for hashable keys.
-/

namespace PyValidator

/-- Runtime type tags, the results of Python `type(x)` relevant to the
source (`exp.__name__` is `typeName` below). -/
inductive PyType where
  | noneT | boolT | intT | floatT | strT
  | listT | tupleT | setT | frozensetT | dictT
  | orT | andT | listOfT | optionalT | forceT | errorT | funcT | exnT
  | typeT
deriving DecidableEq

/-- `T.__name__` for each runtime type. -/
def typeName : PyType → String
  | .noneT => "NoneType" | .boolT => "bool" | .intT => "int"
  | .floatT => "float" | .strT => "str" | .listT => "list"
  | .tupleT => "tuple" | .setT => "set" | .frozensetT => "frozenset"
  | .dictT => "dict" | .orT => "Or" | .andT => "And"
  | .listOfT => "ListOf" | .optionalT => "Optional"
  | .forceT => "ForceValue" | .errorT => "Error"
  | .funcT => "function" | .exnT => "Exception" | .typeT => "type"

/-- The four concrete sequence types accepted by the source's
`isList = lambda x : isinstance( x,(list,tuple,set,frozenset))`. -/
inductive SeqKind where
  | list | tuple | set | frozenset
deriving DecidableEq

/-- Equality class of a sequence kind under Python `==`: a list only
equals a list, a tuple only a tuple, while `set` and `frozenset`
compare with each other by set equality. -/
def kindClass : SeqKind → Nat
  | .list => 0 | .tuple => 1 | .set => 2 | .frozenset => 2

/-- Python objects, covering both data values and schema descriptors,
parameterized by the carrier `F` of user predicate functions.
`vexn` represents an exception object caught by the safety net. -/
inductive PyObj (F : Type) where
  | vnone
  | vbool (b : Bool)
  | vint (n : Int)
  | vfloat (q : Rat)
  | vstr (s : String)
  | vseq (k : SeqKind) (xs : List (PyObj F))
  | vdict (kvs : List (PyObj F × PyObj F))
  | vtype (t : PyType)
  | vor (choice : List (PyObj F))
  | vand (choice : List (PyObj F))
  | vlistOf (check : PyObj F)
  | voptional (key : PyObj F)
  | vforce (value : PyObj F)
  | verror (message : String)
  | vfunc (f : F)
  | vexn (msg : String)

/-- A diagnostic appended to the report: `(path, message)` or
`(path, message, value)`. -/
inductive Diag (F : Type) where
  | two (path msg : String)
  | three (path msg : String) (value : PyObj F)

/-- The semantics of the user predicate carrier: `funcInfo` returns
`(arity, name)`, and `call f args` runs the predicate on the given
positional arguments, possibly raising (`Except.error` carries the
description of the raised exception). -/
structure PredSem (F : Type) where
  arity : F → Nat
  name : F → String
  call : F → List (PyObj F) → Except String (PyObj F)

variable {F : Type}

/-- Numeric view used by Python `==`: `bool`, `int` and `float` values
all compare by numeric value (`True == 1 == 1.0`). -/
def pyNum? : PyObj F → Option Rat
  | .vbool b => some (if b then 1 else 0)
  | .vint n => some (n : Rat)
  | .vfloat q => some q
  | _ => none

/-- `type(x)` of a value. -/
def pyTypeOf : PyObj F → PyType
  | .vnone => .noneT | .vbool _ => .boolT | .vint _ => .intT
  | .vfloat _ => .floatT | .vstr _ => .strT
  | .vseq .list _ => .listT | .vseq .tuple _ => .tupleT
  | .vseq .set _ => .setT | .vseq .frozenset _ => .frozensetT
  | .vdict _ => .dictT | .vtype _ => .typeT
  | .vor _ => .orT | .vand _ => .andT | .vlistOf _ => .listOfT
  | .voptional _ => .optionalT | .vforce _ => .forceT
  | .verror _ => .errorT | .vfunc _ => .funcT | .vexn _ => .exnT

/-- Python truthiness (`bool(x)`), as used by `elif not res`.  Instances
of the descriptor classes and functions are truthy by default. -/
def pyTruthy : PyObj F → Bool
  | .vnone => false
  | .vbool b => b
  | .vint n => n != 0
  | .vfloat q => q != 0
  | .vstr s => s != ""
  | .vseq _ xs => !xs.isEmpty
  | .vdict kvs => !kvs.isEmpty
  | _ => true

/-- Iteration (`enumerate( obj )`): sequences yield their elements,
strings their characters (as one-character strings), mappings their
keys; everything else is not iterable and raises `TypeError`. -/
def pyIter : PyObj F → Option (List (PyObj F))
  | .vseq _ xs => some xs
  | .vstr s => some (s.data.map fun c => .vstr (String.mk [c]))
  | .vdict kvs => some (kvs.map Prod.fst)
  | _ => none

/-- `isinstance( x,(list,tuple,set,frozenset))`. -/
def isList : PyObj F → Bool
  | .vseq _ _ => true
  | _ => false

mutual

/-- Python `==` on the modelled universe.  `bool`/`int`/`float` compare
numerically; strings, `None` and type objects by identity of content;
lists and tuples elementwise (a list never equals a tuple); `set` and
`frozenset` by mutual membership; mappings by length and key-wise value
comparison.  Instances of the descriptor classes (`Or`, `And`,
`ListOf`, `Optional`, `ForceValue`, `Error`), functions and exception
objects use default object equality, i.e. object identity; distinct
objects of those kinds compare unequal, which is the conservative
rendering in a model without object identity. -/
def pyEq : PyObj F → PyObj F → Bool
  | .vbool b₁, x => match pyNum? x with
    | some y => (if b₁ then (1 : Rat) else 0) == y
    | none => false
  | .vint n, x => match pyNum? x with
    | some y => (n : Rat) == y
    | none => false
  | .vfloat q, x => match pyNum? x with
    | some y => q == y
    | none => false
  | .vnone, .vnone => true
  | .vstr s, .vstr t => s == t
  | .vtype t₁, .vtype t₂ => t₁ == t₂
  | .vseq k₁ xs, .vseq k₂ ys =>
    if kindClass k₁ != kindClass k₂ then false
    else if kindClass k₁ == 2 then
      xs.length == ys.length && pySubset xs ys
    else
      pyEqList xs ys
  | .vdict d₁, .vdict d₂ =>
    d₁.length == d₂.length && pyDictLe d₁ d₂
  | _, _ => false
termination_by a b => sizeOf a + sizeOf b

/-- Elementwise equality of two element lists (Python list/tuple `==`). -/
def pyEqList : List (PyObj F) → List (PyObj F) → Bool
  | [], [] => true
  | x :: xs, y :: ys => pyEq x y && pyEqList xs ys
  | _, _ => false
termination_by xs ys => sizeOf xs + sizeOf ys

/-- Membership by Python equality (`x in ys`). -/
def pyMemB (x : PyObj F) : List (PyObj F) → Bool
  | [] => false
  | y :: ys => pyEq x y || pyMemB x ys
termination_by ys => sizeOf x + sizeOf ys

/-- `xs <= ys` as Python sets: every element of `xs` is in `ys`. -/
def pySubset : List (PyObj F) → List (PyObj F) → Bool
  | [], _ => true
  | x :: xs, ys => pyMemB x ys && pySubset xs ys
termination_by xs ys => sizeOf xs + sizeOf ys

/-- One mapping entry `(k, v)` is matched in `kvs`: the first key of
`kvs` equal to `k` carries a value equal to `v`. -/
def pyLookupEq (kvs : List (PyObj F × PyObj F)) (k v : PyObj F) : Bool :=
  match kvs with
  | [] => false
  | (k', v') :: rest => if pyEq k k' then pyEq v v' else pyLookupEq rest k v
termination_by sizeOf kvs + sizeOf k + sizeOf v

/-- Every entry of `d₁` is matched in `d₂` (Python dict `==` after the
length check). -/
def pyDictLe : List (PyObj F × PyObj F) → List (PyObj F × PyObj F) → Bool
  | [], _ => true
  | (k, v) :: rest, d₂ => pyLookupEq d₂ k v && pyDictLe rest d₂
termination_by d₁ d₂ => sizeOf d₁ + sizeOf d₂

end

/-- Rendering of `'%s' % x` for the objects that can reach the
`'!= %s'` fallback message (scalars and descriptor-class instances;
containers and combinators are dispatched to their own branches before
the fallback).  The address part of Python's default object repr and
the decimal rendering of non-integral floats are approximated. -/
def pyToStr : PyObj F → String
  | .vnone => "None"
  | .vbool b => if b then "True" else "False"
  | .vint n => toString n
  | .vfloat q => if q.den == 1 then toString q.num ++ ".0" else toString q
  | .vstr s => s
  | .vexn m => m
  | .vtype t => "<class " ++ typeName t ++ ">"
  | .voptional _ => "<Optional object>"
  | .vforce _ => "<ForceValue object>"
  | .verror _ => "<Error object>"
  | .vfunc _ => "<function>"
  | .vseq _ _ => "<sequence>"
  | .vdict _ => "<dict>"
  | .vor _ => "<Or object>"
  | .vand _ => "<And object>"
  | .vlistOf _ => "<ListOf object>"

/-- First-match association lookup with Python equality: models
`key in obj` / `obj[key]` on a mapping. -/
def pyLookup (kvs : List (PyObj F × PyObj F)) (k : PyObj F) :
    Option (PyObj F) :=
  match kvs with
  | [] => none
  | (k', v') :: rest => if pyEq k k' then some v' else pyLookup rest k

/-- Mapping assignment `d[k] = v`: replaces the value of the first key
equal to `k` (the stored key object is kept, as in Python), else
appends a new entry. -/
def dictInsert (kvs : List (PyObj F × PyObj F)) (k v : PyObj F) :
    List (PyObj F × PyObj F) :=
  match kvs with
  | [] => [(k, v)]
  | (k', v') :: rest =>
    if pyEq k k' then (k', v) :: rest else (k', v') :: dictInsert rest k v

/-- The exception message for `enumerate( obj )` on a non-iterable
object (`TypeError`). -/
def notIterableMsg (obj : PyObj F) : String :=
  "'" ++ typeName (pyTypeOf obj) ++ "' object is not iterable"

/-- The exception message for `path + '.' + key` when the unwrapped
schema key is not a string (`TypeError`). -/
def keyConcatMsg (key : PyObj F) : String :=
  "can only concatenate str (not " ++ typeName (pyTypeOf key) ++ ") to str"

/-- `(expk.key, False) if isOpt( expk ) else (expk, True)`. -/
def unwrapOpt : PyObj F → PyObj F × Bool
  | .voptional k => (k, false)
  | expk => (expk, true)

/-- CPython's `float( obj )` on an `int` (the conversion at the
widening arm): the integer is rounded to the nearest IEEE-754 double,
ties to even.  Magnitudes below `2^53` are exactly representable;
otherwise the magnitude is rounded at 53 significant bits, and if the
rounded magnitude reaches `2^1024` the conversion raises
`OverflowError` (`none`). -/
def pyFloatOfInt (n : Int) : Option Rat :=
  let a := n.natAbs
  if a < 2 ^ 53 then some ((n : Rat))
  else
    let s := Nat.log2 a - 52
    let q := a / 2 ^ s
    let r := a % 2 ^ s
    let q' := if 2 ^ (s - 1) < r ∨ (r = 2 ^ (s - 1) ∧ q % 2 = 1)
      then q + 1 else q
    let v := q' * 2 ^ s
    if 2 ^ 1024 ≤ v then none
    else if n < 0 then some (-(v : Rat)) else some ((v : Rat))

mutual

/-- The recursive matcher `sub( obj,exp,report,path )` of the source.
Returns the transformed value together with the list of diagnostics this
call appended to the shared report, wrapping `subBody` in the
`try ... except` safety net: a fault inside the frame is converted to a
`(path, 'failure', e)` diagnostic appended after the diagnostics the
frame had already produced, and the value is returned unchanged. -/
def sub (S : PredSem F) (ig : Bool) (obj exp : PyObj F) (path : String) :
    PyObj F × List (Diag F) :=
  match subBody S ig obj exp path with
  | .ok r => r
  | .error (ds, e) => (obj, ds ++ [.three path "failure" (.vexn e)])
termination_by (sizeOf exp, 2)

/-- The body of `sub` inside the `try`: the dispatch chain
`obj == exp` / empty `Or`-`And` / `Or` / `And` / sequence scheme /
`ListOf` / mapping scheme / callable / type marker / `!=` fallback.
A raised fault is `Except.error (ds, e)` where `ds` are the diagnostics
already appended by this frame before the fault. -/
def subBody (S : PredSem F) (ig : Bool) (obj exp : PyObj F)
    (path : String) :
    Except (List (Diag F) × String) (PyObj F × List (Diag F)) :=
  if pyEq obj exp then .ok (obj, [])
  else
    match exp with
    | .vor [] => .ok (obj, [.two path "empty choice"])
    | .vand [] => .ok (obj, [.two path "empty choice"])
    | .vor cs =>
      let r := orLoop S ig obj cs path
      .ok (if r.2.isEmpty then (r.1, []) else (obj, r.2))
    | .vand cs =>
      let r := andLoop S ig obj cs path
      .ok (if r.2.isEmpty then (r.1, []) else (obj, r.2))
    | .vseq _ es =>
      match obj with
      | .vseq _ os =>
        if os.length != es.length then
          .ok (obj, [.three path
            ("length is " ++ toString os.length ++ " but should be " ++
              toString es.length) obj])
        else
          let r := seqLoop S ig os es path 0
          .ok (.vseq .list r.1, r.2)
      | _ => .ok (obj, [.three path "array expected" obj])
    | .vlistOf check =>
      match pyIter obj with
      | some xs =>
        let r := listOfLoop S ig check xs path 0
        .ok (.vseq .list r.1, r.2)
      | none => .error ([], notIterableMsg obj)
    | .vdict fields =>
      match obj with
      | .vdict objkvs =>
        match dictLoop S ig fields objkvs path [] [] [] with
        | .error e => .error e
        | .ok (keys, obj2, ds) =>
          let extra := (objkvs.map Prod.fst).filter fun k => !(pyMemB k keys)
          if extra.isEmpty then .ok (.vdict obj2, ds)
          else if ig then
            .ok (.vdict (extra.foldl
              (fun acc k => dictInsert acc k ((pyLookup objkvs k).getD .vnone))
              obj2), ds)
          else
            .ok (.vdict obj2,
              ds ++ extra.map fun k => Diag.three path "extra key" k)
      | _ => .ok (obj, [.three path "dictionary expected" obj])
    | .vfunc f =>
      let nb := S.arity f
      let name := S.name f
      if nb != 1 && nb != 2 then
        .ok (obj, [.two path (name ++ " should take 1 or 2 parameters")])
      else
        match S.call f (if nb == 1 then [obj] else [.vstr path, obj]) with
        | .error e =>
          .ok (obj, [.two path (name ++ " call raised " ++ e)])
        | .ok res =>
          match res with
          | .vforce v => .ok (v, [])
          | .verror m => .ok (obj, [.three path m obj])
          | _ =>
            if !(pyTruthy res) then
              .ok (obj, [.three path ("invalidated by " ++ name) obj])
            else .ok (obj, [])
    | .vtype t =>
      match obj, t with
      | .vint n, .floatT =>
        match pyFloatOfInt n with
        | some q => .ok (.vfloat q, [])
        | none => .error ([], "int too large to convert to float")
      | _, _ =>
        if t = .strT then
          if pyTypeOf obj = .strT then .ok (obj, [])
          else .ok (obj, [.three path "not a str" obj])
        else if t ≠ pyTypeOf obj then
          .ok (obj, [.three path ("not a " ++ typeName t) obj])
        else .ok (obj, [])
    | _ =>
      if !(pyEq exp obj) then
        .ok (obj, [.three path ("!= " ++ pyToStr exp) obj])
      else .ok (obj, [])
termination_by (sizeOf exp, 1)

/-- The `Or` loop: try each choice against a fresh scratch report,
stopping at the first choice whose scratch stays empty; the pair from
the last executed iteration is returned (only called on a nonempty
choice list). -/
def orLoop (S : PredSem F) (ig : Bool) (obj : PyObj F)
    (cs : List (PyObj F)) (path : String) : PyObj F × List (Diag F) :=
  match cs with
  | [] => (obj, [])
  | c :: cs' =>
    let r := sub S ig obj c path
    if cs'.isEmpty then r
    else if r.2.isEmpty then r
    else orLoop S ig obj cs' path
termination_by (sizeOf cs, 3)

/-- The `And` loop: try each choice (each applied to the original
`obj`), stopping at the first choice whose scratch report is nonempty;
the pair from the last executed iteration is returned. -/
def andLoop (S : PredSem F) (ig : Bool) (obj : PyObj F)
    (cs : List (PyObj F)) (path : String) : PyObj F × List (Diag F) :=
  match cs with
  | [] => (obj, [])
  | c :: cs' =>
    let r := sub S ig obj c path
    if cs'.isEmpty then r
    else if r.2.isEmpty then andLoop S ig obj cs' path
    else r
termination_by (sizeOf cs, 3)

/-- `[sub( o,e,report,path+'[%d]'%i ) for i,(o,e) in enumerate( zip( obj,exp ))]`
for a sequence scheme (only called with lists of equal length). -/
def seqLoop (S : PredSem F) (ig : Bool) (os es : List (PyObj F))
    (path : String) (i : Nat) : List (PyObj F) × List (Diag F) :=
  match os, es with
  | o :: os', e :: es' =>
    let r := sub S ig o e (path ++ "[" ++ toString i ++ "]")
    let rest := seqLoop S ig os' es' path (i + 1)
    (r.1 :: rest.1, r.2 ++ rest.2)
  | _, _ => ([], [])
termination_by (sizeOf es, 3)

/-- `[sub( o,exp.check,report,path+'[%d]'%i ) for i,o in enumerate( obj )]`. -/
def listOfLoop (S : PredSem F) (ig : Bool) (check : PyObj F)
    (xs : List (PyObj F)) (path : String) (i : Nat) :
    List (PyObj F) × List (Diag F) :=
  match xs with
  | [] => ([], [])
  | x :: xs' =>
    let r := sub S ig x check (path ++ "[" ++ toString i ++ "]")
    let rest := listOfLoop S ig check xs' path (i + 1)
    (r.1 :: rest.1, r.2 ++ rest.2)
termination_by (sizeOf check, 3 + xs.length)

/-- The mapping-field loop of the source: for each schema field, unwrap
an `Optional` key, record the key, and either recurse on the present
value (faulting on `path + '.' + key` if the key is not a string), or
report `'not found'` for a missing mandatory key.  Accumulates, in
order: the recorded keys, the rebuilt mapping `obj2`, and the appended
diagnostics; a fault carries the diagnostics appended so far. -/
def dictLoop (S : PredSem F) (ig : Bool)
    (fields objkvs : List (PyObj F × PyObj F)) (path : String)
    (keys : List (PyObj F)) (obj2 : List (PyObj F × PyObj F))
    (ds : List (Diag F)) :
    Except (List (Diag F) × String)
      (List (PyObj F) × List (PyObj F × PyObj F) × List (Diag F)) :=
  match fields with
  | [] => .ok (keys, obj2, ds)
  | (expk, expv) :: rest =>
    match pyLookup objkvs (unwrapOpt expk).1 with
    | some v =>
      match (unwrapOpt expk).1 with
      | .vstr s =>
        dictLoop S ig rest objkvs path (keys ++ [.vstr s])
          (dictInsert obj2 (.vstr s)
            (sub S ig v expv (path ++ "." ++ s)).1)
          (ds ++ (sub S ig v expv (path ++ "." ++ s)).2)
      | _ => .error (ds, keyConcatMsg (unwrapOpt expk).1)
    | none =>
      if (unwrapOpt expk).2 then
        dictLoop S ig rest objkvs path (keys ++ [(unwrapOpt expk).1]) obj2
          (ds ++ [.three path "not found" (unwrapOpt expk).1])
      else
        dictLoop S ig rest objkvs path (keys ++ [(unwrapOpt expk).1]) obj2 ds
termination_by (sizeOf fields, 3)

end

/-- `validate( given,expected,ignore_extra_keys=False )`, returning the
rebuilt value and the report.  The source wraps the report list into a
Python `set`; the returned list here determines that set, and the
set-level statements below are phrased on it. -/
def validate (S : PredSem F) (given expected : PyObj F)
    (ignore_extra_keys : Bool := false) : PyObj F × List (Diag F) :=
  sub S ignore_extra_keys given expected ""

/-- Sample user predicates used by the concrete theorems below,
mirroring predicates from the source's documentation samples. -/
inductive DemoF where
  | boom
  | double
deriving DecidableEq

/-- Semantics of the sample predicates:
`boom` is a 1-parameter function that raises (`1/0`), and
`double` is `lambda n : ForceValue( n*2 )`. -/
def demoSem : PredSem DemoF where
  arity := fun _ => 1
  name := fun f => match f with
    | .boom => "boom"
    | .double => "double"
  call := fun f args => match f, args with
    | .boom, _ => .error "division by zero"
    | .double, [.vint n] => .ok (.vforce (.vint (2 * n)))
    | .double, _ => .ok (.vbool true)

/-- Recognizes a safety-net diagnostic `(path, 'failure', value)`. -/
def isFailureDiag : Diag F → Bool
  | .three _ m _ => m == "failure"
  | .two _ _ => false

/-- `isinstance( x,dict )`-like test via `hasattr` probing: only
mapping values have `items` and `keys`. -/
def isDict : PyObj F → Bool
  | .vdict _ => true
  | _ => false

/-- Descriptors dispatched to the final `'!= %s'` fallback arm: scalars
and the wrapper-class instances that no earlier branch recognizes. -/
def isFallbackDesc : PyObj F → Bool
  | .vnone | .vbool _ | .vint _ | .vfloat _ | .vstr _ => true
  | .voptional _ | .vforce _ | .verror _ | .vexn _ => true
  | _ => false

/-- The unwrapped keys of a mapping schema's fields, in declaration
order (the `keys` list of the source). -/
def fieldKeys (fields : List (PyObj F × PyObj F)) : List (PyObj F) :=
  fields.map fun f => (unwrapOpt f.1).1

/-- The unwrapped keys of a mapping schema, when they are all strings. -/
def keyStrs? : List (PyObj F × PyObj F) → Option (List String)
  | [] => some []
  | (k, _) :: rest =>
    match (unwrapOpt k).1 with
    | .vstr s => (keyStrs? rest).map fun ss => s :: ss
    | _ => none

/-- Pairwise distinctness of a string list. -/
def strDistinct : List String → Bool
  | [] => true
  | s :: ss => ss.all (fun t => s != t) && strDistinct ss

mutual

/-- Plain descriptors: no predicate, no `Or`, no `And`, and every
mapping's unwrapped keys are pairwise distinct strings.  The class of
schemas for which validation is idempotent on its own output. -/
def plainB : PyObj F → Bool
  | .vseq _ es => plainListB es
  | .vlistOf c => plainB c
  | .vdict fields =>
    (match keyStrs? fields with
      | some ss => strDistinct ss
      | none => false) && plainFieldsB fields
  | .vfunc _ => false
  | .vor _ => false
  | .vand _ => false
  | _ => true

def plainListB : List (PyObj F) → Bool
  | [] => true
  | x :: xs => plainB x && plainListB xs

def plainFieldsB : List (PyObj F × PyObj F) → Bool
  | [] => true
  | (_, v) :: rest => plainB v && plainFieldsB rest

end

/-- The mapping entries rebuilt by the field loop of the source
(`obj2` just before extra-key handling), for a schema whose found keys
are strings: one entry per schema field found in the value, in field
order, carrying the transformed value. -/
def dictOut (S : PredSem F) (ig : Bool)
    (fields okv : List (PyObj F × PyObj F)) (path : String) :
    List (PyObj F × PyObj F) :=
  match fields with
  | [] => []
  | (expk, expv) :: rest =>
    match pyLookup okv (unwrapOpt expk).1 with
    | some v =>
      match (unwrapOpt expk).1 with
      | .vstr s =>
        (.vstr s, (sub S ig v expv (path ++ "." ++ s)).1) ::
          dictOut S ig rest okv path
      | _ => dictOut S ig rest okv path
    | none => dictOut S ig rest okv path

/-- The diagnostics appended by the field loop of the source, for a
schema whose found keys are strings. -/
def dictDiags (S : PredSem F) (ig : Bool)
    (fields okv : List (PyObj F × PyObj F)) (path : String) :
    List (Diag F) :=
  match fields with
  | [] => []
  | (expk, expv) :: rest =>
    match pyLookup okv (unwrapOpt expk).1 with
    | some v =>
      (match (unwrapOpt expk).1 with
        | .vstr s => (sub S ig v expv (path ++ "." ++ s)).2
        | _ => []) ++ dictDiags S ig rest okv path
    | none =>
      (if (unwrapOpt expk).2 then
        [Diag.three path "not found" (unwrapOpt expk).1]
      else []) ++ dictDiags S ig rest okv path

/-! ### Basic lemmas about Python equality and the dispatch chain -/

theorem pyEq_to_vor (a : PyObj F) (cs : List (PyObj F)) :
    pyEq a (.vor cs) = false := by
  cases a <;> simp [pyEq, pyNum?]

theorem pyEq_to_vand (a : PyObj F) (cs : List (PyObj F)) :
    pyEq a (.vand cs) = false := by
  cases a <;> simp [pyEq, pyNum?]

theorem pyEq_to_vlistOf (a : PyObj F) (c : PyObj F) :
    pyEq a (.vlistOf c) = false := by
  cases a <;> simp [pyEq, pyNum?]

theorem pyEq_to_vfunc (a : PyObj F) (f : F) :
    pyEq a (.vfunc f) = false := by
  cases a <;> simp [pyEq, pyNum?]

theorem pyEq_nonseq_to_vseq (a : PyObj F) (h : isList a = false)
    (k : SeqKind) (es : List (PyObj F)) : pyEq a (.vseq k es) = false := by
  cases a <;> simp_all [pyEq, pyNum?, isList]

/-- The structural-equality short-circuit: if `obj == exp`, the value is
accepted unchanged with no diagnostics. -/
theorem sub_of_pyEq (S : PredSem F) (ig : Bool) (obj exp : PyObj F)
    (path : String) (h : pyEq obj exp = true) :
    sub S ig obj exp path = (obj, []) := by
  simp [sub.eq_def, subBody.eq_def, h]

/-! ### One-step reduction lemmas for `sub`, one per dispatch branch -/

theorem sub_vor_nil (S : PredSem F) (ig : Bool) (obj : PyObj F)
    (path : String) :
    sub S ig obj (.vor []) path = (obj, [.two path "empty choice"]) := by
  rw [sub.eq_def, subBody.eq_def]
  simp [pyEq_to_vor]

theorem sub_vand_nil (S : PredSem F) (ig : Bool) (obj : PyObj F)
    (path : String) :
    sub S ig obj (.vand []) path = (obj, [.two path "empty choice"]) := by
  rw [sub.eq_def, subBody.eq_def]
  simp [pyEq_to_vand]

theorem sub_vor_cons (S : PredSem F) (ig : Bool) (obj c : PyObj F)
    (cs : List (PyObj F)) (path : String) :
    sub S ig obj (.vor (c :: cs)) path =
      (if (orLoop S ig obj (c :: cs) path).2.isEmpty then
        ((orLoop S ig obj (c :: cs) path).1, [])
      else (obj, (orLoop S ig obj (c :: cs) path).2)) := by
  rw [sub.eq_def, subBody.eq_def]
  simp [pyEq_to_vor]

theorem sub_vand_cons (S : PredSem F) (ig : Bool) (obj c : PyObj F)
    (cs : List (PyObj F)) (path : String) :
    sub S ig obj (.vand (c :: cs)) path =
      (if (andLoop S ig obj (c :: cs) path).2.isEmpty then
        ((andLoop S ig obj (c :: cs) path).1, [])
      else (obj, (andLoop S ig obj (c :: cs) path).2)) := by
  rw [sub.eq_def, subBody.eq_def]
  simp [pyEq_to_vand]

theorem sub_vlistOf_iter (S : PredSem F) (ig : Bool) (obj check : PyObj F)
    (xs : List (PyObj F)) (path : String) (h : pyIter obj = some xs) :
    sub S ig obj (.vlistOf check) path =
      (.vseq .list (listOfLoop S ig check xs path 0).1,
        (listOfLoop S ig check xs path 0).2) := by
  rw [sub.eq_def, subBody.eq_def]
  simp [pyEq_to_vlistOf, h]

theorem sub_vlistOf_noiter (S : PredSem F) (ig : Bool)
    (obj check : PyObj F) (path : String) (h : pyIter obj = none) :
    sub S ig obj (.vlistOf check) path
      = (obj, [.three path "failure" (.vexn (notIterableMsg obj))]) := by
  rw [sub.eq_def, subBody.eq_def]
  simp [pyEq_to_vlistOf, h]

theorem sub_vseq_eqlen (S : PredSem F) (ig : Bool) (k k' : SeqKind)
    (os es : List (PyObj F)) (path : String)
    (hpe : pyEq (.vseq k os) (.vseq k' es) = false)
    (hlen : os.length = es.length) :
    sub S ig (.vseq k os) (.vseq k' es) path =
      (.vseq .list (seqLoop S ig os es path 0).1,
        (seqLoop S ig os es path 0).2) := by
  rw [sub.eq_def, subBody.eq_def]
  simp [hpe, hlen]

theorem sub_vseq_badlen (S : PredSem F) (ig : Bool) (k k' : SeqKind)
    (os es : List (PyObj F)) (path : String)
    (hpe : pyEq (.vseq k os) (.vseq k' es) = false)
    (hlen : os.length ≠ es.length) :
    sub S ig (.vseq k os) (.vseq k' es) path =
      (.vseq k os, [.three path
        ("length is " ++ toString os.length ++ " but should be " ++
          toString es.length) (.vseq k os)]) := by
  rw [sub.eq_def, subBody.eq_def]
  simp [hpe, hlen]

theorem sub_vdict_step (S : PredSem F) (ig : Bool)
    (okv fs : List (PyObj F × PyObj F)) (path : String)
    (h : pyEq (.vdict okv) (.vdict fs) = false) :
    sub S ig (.vdict okv) (.vdict fs) path =
      (match dictLoop S ig fs okv path [] [] [] with
      | .error (ds, e) =>
        (.vdict okv, ds ++ [.three path "failure" (.vexn e)])
      | .ok (keys, obj2, ds) =>
        let extra := (okv.map Prod.fst).filter fun k => !(pyMemB k keys)
        if extra.isEmpty then (.vdict obj2, ds)
        else if ig then
          (.vdict (extra.foldl
            (fun acc k => dictInsert acc k ((pyLookup okv k).getD .vnone))
            obj2), ds)
        else
          (.vdict obj2, ds ++ extra.map fun k => Diag.three path "extra key" k)) := by
  rw [sub.eq_def, subBody.eq_def]
  cases hd : dictLoop S ig fs okv path [] [] [] with
  | error e => cases e with | mk ds e => simp [h, hd]
  | ok r =>
    simp only [h, Bool.false_eq_true, if_false, hd]
    split_ifs <;> rfl

theorem sub_vfunc_step (S : PredSem F) (ig : Bool) (obj : PyObj F)
    (f : F) (path : String) :
    sub S ig obj (.vfunc f) path =
      (if S.arity f != 1 && S.arity f != 2 then
        (obj, [.two path (S.name f ++ " should take 1 or 2 parameters")])
      else
        match S.call f (if S.arity f == 1 then [obj]
            else [.vstr path, obj]) with
        | .error e => (obj, [.two path (S.name f ++ " call raised " ++ e)])
        | .ok res =>
          match res with
          | .vforce v => (v, [])
          | .verror m => (obj, [.three path m obj])
          | _ =>
            if !(pyTruthy res) then
              (obj, [.three path ("invalidated by " ++ S.name f) obj])
            else (obj, [])) := by
  rw [sub.eq_def, subBody.eq_def]
  simp only [pyEq_to_vfunc, Bool.false_eq_true, if_false]
  cases hn : S.arity f != 1 && S.arity f != 2 with
  | true => simp [hn]
  | false =>
    simp only [hn, Bool.false_eq_true, if_false]
    cases hc : S.call f (if S.arity f == 1 then [obj]
        else [.vstr path, obj]) with
    | error e => simp [hc]
    | ok res =>
      cases res <;> simp only [hc] <;>
        first
        | rfl
        | (split_ifs <;> rfl)

theorem str_empty_append (s : String) : "" ++ s = s := rfl

theorem list_isEmpty_false {A : Type _} (l : List A) (h : l ≠ []) :
    l.isEmpty = false := by
  cases l with
  | nil => exact absurd rfl h
  | cons a l => rfl

theorem sub_vor_ne (S : PredSem F) (ig : Bool) (obj : PyObj F)
    (cs : List (PyObj F)) (path : String) (hne : cs ≠ []) :
    sub S ig obj (.vor cs) path =
      (if (orLoop S ig obj cs path).2.isEmpty then
        ((orLoop S ig obj cs path).1, [])
      else (obj, (orLoop S ig obj cs path).2)) := by
  cases cs with
  | nil => exact absurd rfl hne
  | cons c cs' => exact sub_vor_cons S ig obj c cs' path

theorem sub_vand_ne (S : PredSem F) (ig : Bool) (obj : PyObj F)
    (cs : List (PyObj F)) (path : String) (hne : cs ≠ []) :
    sub S ig obj (.vand cs) path =
      (if (andLoop S ig obj cs path).2.isEmpty then
        ((andLoop S ig obj cs path).1, [])
      else (obj, (andLoop S ig obj cs path).2)) := by
  cases cs with
  | nil => exact absurd rfl hne
  | cons c cs' => exact sub_vand_cons S ig obj c cs' path

/-- If every choice before the last one fails, the `Or` loop runs to
its last iteration and returns that iteration's pair. -/
theorem orLoop_all_fail (S : PredSem F) (ig : Bool) (obj : PyObj F)
    (path : String) :
    ∀ (cs : List (PyObj F)) (c : PyObj F),
      (∀ c' ∈ cs, (sub S ig obj c' path).2 ≠ []) →
      orLoop S ig obj (cs ++ [c]) path = sub S ig obj c path := by
  intro cs
  induction cs with
  | nil =>
    intro c _
    rw [List.nil_append, orLoop.eq_def]
    rfl
  | cons c0 cs ih =>
    intro c hall
    rw [List.cons_append, orLoop.eq_def]
    have h0 : (sub S ig obj c0 path).2 ≠ [] := hall c0 (by simp)
    have hne : (cs ++ [c]).isEmpty = false := by simp
    simp only [hne, list_isEmpty_false _ h0, Bool.false_eq_true, if_false]
    exact ih c fun c' hc' => hall c' (List.mem_cons_of_mem _ hc')

/-- If every choice before `c` fails and `c` succeeds, the `Or` loop
breaks at `c` and returns `c`'s pair. -/
theorem orLoop_first_success (S : PredSem F) (ig : Bool) (obj : PyObj F)
    (path : String) :
    ∀ (pre : List (PyObj F)) (c : PyObj F) (post : List (PyObj F)),
      (∀ c' ∈ pre, (sub S ig obj c' path).2 ≠ []) →
      (sub S ig obj c path).2 = [] →
      orLoop S ig obj (pre ++ c :: post) path = sub S ig obj c path := by
  intro pre
  induction pre with
  | nil =>
    intro c post _ hc
    rw [List.nil_append, orLoop.eq_def]
    cases hp : post.isEmpty <;> simp [hp, hc]
  | cons c0 pre ih =>
    intro c post hpre hc
    rw [List.cons_append, orLoop.eq_def]
    have h0 : (sub S ig obj c0 path).2 ≠ [] := hpre c0 (by simp)
    have hne : (pre ++ c :: post).isEmpty = false := by simp
    simp only [hne, list_isEmpty_false _ h0, Bool.false_eq_true, if_false]
    exact ih c post (fun c' hc' => hpre c' (List.mem_cons_of_mem _ hc')) hc

/-- If every choice before the last one succeeds, the `And` loop runs
to its last iteration and returns that iteration's pair (computed, like
every iteration, from the original `obj`). -/
theorem andLoop_all_pass (S : PredSem F) (ig : Bool) (obj : PyObj F)
    (path : String) :
    ∀ (cs : List (PyObj F)) (c : PyObj F),
      (∀ c' ∈ cs, (sub S ig obj c' path).2 = []) →
      andLoop S ig obj (cs ++ [c]) path = sub S ig obj c path := by
  intro cs
  induction cs with
  | nil =>
    intro c _
    rw [List.nil_append, andLoop.eq_def]
    rfl
  | cons c0 cs ih =>
    intro c hall
    rw [List.cons_append, andLoop.eq_def]
    have h0 : (sub S ig obj c0 path).2 = [] := hall c0 (by simp)
    have hne : (cs ++ [c]).isEmpty = false := by simp
    simp only [hne, h0, List.isEmpty_nil, Bool.false_eq_true, if_false,
      if_true]
    exact ih c fun c' hc' => hall c' (List.mem_cons_of_mem _ hc')

/-- If every choice before `c` succeeds and `c` fails, the `And` loop
breaks at `c` and returns `c`'s pair. -/
theorem andLoop_first_fail (S : PredSem F) (ig : Bool) (obj : PyObj F)
    (path : String) :
    ∀ (pre : List (PyObj F)) (c : PyObj F) (post : List (PyObj F)),
      (∀ c' ∈ pre, (sub S ig obj c' path).2 = []) →
      (sub S ig obj c path).2 ≠ [] →
      andLoop S ig obj (pre ++ c :: post) path = sub S ig obj c path := by
  intro pre
  induction pre with
  | nil =>
    intro c post _ hc
    rw [List.nil_append, andLoop.eq_def]
    cases hp : post.isEmpty <;> simp [hp, list_isEmpty_false _ hc]
  | cons c0 pre ih =>
    intro c post hpre hc
    rw [List.cons_append, andLoop.eq_def]
    have h0 : (sub S ig obj c0 path).2 = [] := hpre c0 (by simp)
    have hne : (pre ++ c :: post).isEmpty = false := by simp
    simp only [hne, h0, List.isEmpty_nil, Bool.false_eq_true, if_false,
      if_true]
    exact ih c post (fun c' hc' => hpre c' (List.mem_cons_of_mem _ hc')) hc

/-- The widening arm of the type-marker branch: the int is converted
by `float( obj )`, whose `OverflowError` is caught by the safety
net. -/
theorem sub_vtype_widen (S : PredSem F) (ig : Bool) (n : Int)
    (path : String) :
    sub S ig (.vint n) (.vtype .floatT) path =
      match pyFloatOfInt n with
      | some q => (.vfloat q, [])
      | none => (.vint n, [.three path "failure"
          (.vexn "int too large to convert to float")]) := by
  cases hq : pyFloatOfInt n <;>
    · rw [sub.eq_def, subBody.eq_def]
      simp [pyEq, pyNum?, hq]

/-- Exact conversion below `2^53`. -/
theorem pyFloatOfInt_small (n : Int) (h : n.natAbs < 2 ^ 53) :
    pyFloatOfInt n = some ((n : Rat)) := by
  simp only [pyFloatOfInt]
  rw [if_pos h]

/-! ### Claim theorems -/

set_option exponentiation.threshold 2000 in
/-- C6 counterexample: `float( obj )` at the widening arm is an
IEEE-754 double conversion, not an exact one.  Validating the integer
`2^53 + 1 = 9007199254740993` against the float marker yields no
diagnostic but the output `9007199254740992.0` (= `2^53`, the nearest
double) is *not* equal in value to the input integer; and validating
`2^1024` against the float marker does not widen at all: the
conversion raises `OverflowError`, caught by the safety net as a
`(path, 'failure', ...)` diagnostic with the value unchanged. -/
theorem numeric_widening_rounds :
    validate demoSem (.vint 9007199254740993) (.vtype .floatT) false
      = (.vfloat 9007199254740992, []) ∧
    (9007199254740992 : Rat) ≠ ((9007199254740993 : Int) : Rat) ∧
    pyEq (PyObj.vfloat (F := DemoF) 9007199254740992)
      (.vint 9007199254740993) = false ∧
    validate demoSem
        (.vint 179769313486231590772930519078902473361797697894230657273430081157732675805500963132708477322407536021120113879871393357658789768814416622492847430639474124377767893424865485276302219601246094119453082952085005768838150682342462881473913110540827237163350510684586298239947245938479716304835356329624224137216)
        (.vtype .floatT) false
      = (.vint 179769313486231590772930519078902473361797697894230657273430081157732675805500963132708477322407536021120113879871393357658789768814416622492847430639474124377767893424865485276302219601246094119453082952085005768838150682342462881473913110540827237163350510684586298239947245938479716304835356329624224137216,
          [.three "" "failure"
            (.vexn "int too large to convert to float")]) := by
  have hlog1 : Nat.log2 9007199254740993 = 53 := by
    rw [Nat.log2_eq_log_two]
    exact Nat.log_eq_of_pow_le_of_lt_pow (by norm_num) (by norm_num)
  have hlog2 : Nat.log2 179769313486231590772930519078902473361797697894230657273430081157732675805500963132708477322407536021120113879871393357658789768814416622492847430639474124377767893424865485276302219601246094119453082952085005768838150682342462881473913110540827237163350510684586298239947245938479716304835356329624224137216 = 1024 := by
    rw [Nat.log2_eq_log_two]
    exact Nat.log_eq_of_pow_le_of_lt_pow (by norm_num) (by norm_num)
  have hf1 : pyFloatOfInt (9007199254740993 : Int)
      = some (9007199254740992 : Rat) := by
    simp only [pyFloatOfInt]
    norm_num [hlog1]
  have hf2 : pyFloatOfInt (179769313486231590772930519078902473361797697894230657273430081157732675805500963132708477322407536021120113879871393357658789768814416622492847430639474124377767893424865485276302219601246094119453082952085005768838150682342462881473913110540827237163350510684586298239947245938479716304835356329624224137216 : Int)
      = none := by
    simp only [pyFloatOfInt]
    norm_num [hlog2]
  refine ⟨?_, by norm_num, ?_, ?_⟩
  · have hs := sub_vtype_widen demoSem false 9007199254740993 ""
    simp only [hf1] at hs
    exact hs
  · norm_num [pyEq, pyNum?]
  · have hs := sub_vtype_widen demoSem false
      179769313486231590772930519078902473361797697894230657273430081157732675805500963132708477322407536021120113879871393357658789768814416622492847430639474124377767893424865485276302219601246094119453082952085005768838150682342462881473913110540827237163350510684586298239947245938479716304835356329624224137216 ""
    simp only [hf2] at hs
    exact hs

/-- C6 amended: Numeric widening below `2^53`.  Validating a value of
the integer runtime type whose magnitude is below `2^53` (so the
double conversion is exact) against the float type marker yields no
diagnostic, and the returned output has the float runtime type and is
equal in value (under Python `==`) to the input integer.  For larger
integers `float( obj )` rounds to the nearest double, so the output
can differ in value, and from `2^1024` up the conversion raises
`OverflowError`, which the safety net converts to a `'failure'`
diagnostic with the value returned unchanged. -/
theorem numeric_widening_small (S : PredSem F) (ig : Bool) (n : Int)
    (path : String) (h : n.natAbs < 2 ^ 53) :
    sub S ig (.vint n) (.vtype .floatT) path = (.vfloat (n : Rat), []) ∧
    pyTypeOf (PyObj.vfloat (F := F) (n : Rat)) = .floatT ∧
    pyEq (PyObj.vfloat (F := F) (n : Rat)) (.vint n) = true := by
  refine ⟨?_, rfl, ?_⟩
  · have hs := sub_vtype_widen S ig n path
    simp only [pyFloatOfInt_small n h] at hs
    exact hs
  · simp [pyEq, pyNum?]

/-- Witness for C6 amended at a concrete input: `41` is widened to
`41.0` with no diagnostic. -/
theorem numeric_widening_small_witness :
    Int.natAbs 41 < 2 ^ 53 ∧
    (sub demoSem false (.vint 41) (.vtype .floatT) ""
        = (.vfloat ((41 : Int) : Rat), []) ∧
      pyTypeOf (PyObj.vfloat (F := DemoF) ((41 : Int) : Rat)) = .floatT ∧
      pyEq (PyObj.vfloat (F := DemoF) ((41 : Int) : Rat))
        (.vint 41) = true) :=
  ⟨by norm_num,
    numeric_widening_small demoSem false 41 "" (by norm_num)⟩

/-- C9: Booleans are excluded from integer typing by the exact
runtime-type check `type( obj ) == int`: a boolean validated against
the float marker is not widened and yields `'not a float'`, and
against the int marker yields `'not a int'`. -/
theorem bool_not_widened (S : PredSem F) (ig : Bool) (b : Bool)
    (path : String) :
    sub S ig (.vbool b) (.vtype .floatT) path
      = (.vbool b, [.three path "not a float" (.vbool b)]) ∧
    sub S ig (.vbool b) (.vtype .intT) path
      = (.vbool b, [.three path "not a int" (.vbool b)]) := by
  constructor <;>
    simp [sub.eq_def, subBody.eq_def, pyEq, pyNum?, pyTypeOf, typeName]

/-- C10: The structural-equality short-circuit uses host equality, so a
value comparing equal to the descriptor under Python's cross-type
numeric comparison is accepted with no diagnostic and returned
unchanged (the input value, not the descriptor's value): in general
whenever `obj == exp`, and in particular for `1.0` against the literal
descriptor `1`, and for `True` against the literal descriptor `1`. -/
theorem equality_shortcircuit (S : PredSem F) (ig : Bool)
    (obj exp : PyObj F) (path : String) (h : pyEq obj exp = true) :
    sub S ig obj exp path = (obj, []) ∧
    validate S (.vfloat 1) (.vint 1) ig = (.vfloat 1, []) ∧
    validate S (.vbool true) (.vint 1) ig = (.vbool true, []) := by
  refine ⟨sub_of_pyEq S ig obj exp path h, ?_, ?_⟩ <;>
    exact sub_of_pyEq _ _ _ _ _ (by simp [pyEq, pyNum?])

/-- Witness for C10 at a concrete input: validating the float `2.0`
against the integer literal descriptor `2` returns the float unchanged
with no diagnostics. -/
theorem equality_shortcircuit_witness :
    sub demoSem false (.vfloat 2) (.vint 2) "" = (.vfloat 2, []) ∧
    validate demoSem (.vfloat 1) (.vint 1) false = (.vfloat 1, []) ∧
    validate demoSem (.vbool true) (.vint 1) false
      = (.vbool true, []) :=
  equality_shortcircuit demoSem false (.vfloat 2) (.vint 2) ""
    (by simp [pyEq, pyNum?])

/-- C2 counterexample: for the non-sequence value `5` and the schema
`ListOf( int )`, matching does not produce `'array expected'`: the
`ListOf` branch never tests `isList`, so `enumerate( 5 )` raises and
the safety net produces the `(path, 'failure', e)` diagnostic instead,
returning the value unchanged. -/
theorem listof_not_array_expected :
    validate demoSem (.vint 5) (.vlistOf (.vtype .intT)) false
      = (.vint 5, [.three "" "failure"
          (.vexn "'int' object is not iterable")]) ∧
    (Diag.three "" "failure"
        (PyObj.vexn (F := DemoF) "'int' object is not iterable"))
      ≠ .three "" "array expected" (.vint 5) := by
  constructor
  · simp [validate, sub.eq_def, subBody.eq_def, pyEq, pyNum?, pyIter,
      notIterableMsg, pyTypeOf, typeName]
  · simp

/-- C2 amended: for every value that is not a sequence, a bare
sequence-of-descriptors schema (`FixedSequence`) produces the
diagnostic `(path, 'array expected', value)` and returns the value
unchanged with no element-wise recursion; a `ListOf` schema performs no
sequence check at all: if the value is not even iterable the safety net
produces `(path, 'failure', faultDescription)` and returns the value
unchanged, while iterable non-sequence values are recursed
element-wise over their iteration order. -/
theorem array_expected_dispatch (S : PredSem F) (ig : Bool)
    (obj : PyObj F) (path : String) (h : isList obj = false) :
    (∀ (k : SeqKind) (es : List (PyObj F)),
      sub S ig obj (.vseq k es) path
        = (obj, [.three path "array expected" obj])) ∧
    (pyIter obj = none → ∀ check : PyObj F,
      sub S ig obj (.vlistOf check) path
        = (obj, [.three path "failure" (.vexn (notIterableMsg obj))])) := by
  cases obj <;>
    simp_all [sub.eq_def, subBody.eq_def, pyEq, pyNum?, pyIter, isList,
      notIterableMsg, pyTypeOf, typeName]

/-- Witness for C2 amended at concrete inputs: the value `None` is not
a sequence; against the fixed-sequence schema `[int]` it yields
`'array expected'`, and against `ListOf( int )` it yields the
`'failure'` safety-net diagnostic. -/
theorem array_expected_dispatch_witness :
    sub demoSem false .vnone (.vseq .list [.vtype .intT]) ""
      = (.vnone, [.three "" "array expected" .vnone]) ∧
    sub demoSem false .vnone (.vlistOf (.vtype .intT)) ""
      = (.vnone, [.three "" "failure"
          (.vexn "'NoneType' object is not iterable")]) := by
  have h := array_expected_dispatch demoSem false .vnone "" rfl
  exact ⟨h.1 .list [.vtype .intT], h.2 rfl (.vtype .intT)⟩

/-- C8: whenever a sequence value is recursed element-wise — via
`ListOf`, or via a bare sequence-of-descriptors schema whose length
matches (and which is not short-circuited by `obj == exp`) — the
rebuilt output is a Python list of the transformed elements, whatever
the input's sequence kind (list, tuple, set or frozenset) was. -/
theorem rebuilt_as_list (S : PredSem F) (ig : Bool) (k : SeqKind)
    (xs : List (PyObj F)) (path : String) :
    (∀ check : PyObj F,
      (sub S ig (.vseq k xs) (.vlistOf check) path).1
        = .vseq .list (listOfLoop S ig check xs path 0).1) ∧
    (∀ (k' : SeqKind) (es : List (PyObj F)),
      xs.length = es.length →
      pyEq (.vseq k xs) (.vseq k' es) = false →
      (sub S ig (.vseq k xs) (.vseq k' es) path).1
        = .vseq .list (seqLoop S ig xs es path 0).1) := by
  constructor
  · intro check
    simp [sub.eq_def, subBody.eq_def, pyEq_to_vlistOf, pyIter]
  · intro k' es hlen hne
    simp [sub.eq_def, subBody.eq_def, hne, hlen]

/-- Witness for C8 at a concrete input: the tuple `(1, 2)` validated
against `ListOf( int )` and against the fixed-sequence schema
`[int, int]` is rebuilt as the list `[1, 2]` in both cases. -/
theorem rebuilt_as_list_witness :
    (sub demoSem false (.vseq .tuple [.vint 1, .vint 2])
        (.vlistOf (.vtype .intT)) "").1
      = .vseq .list [.vint 1, .vint 2] ∧
    (sub demoSem false (.vseq .tuple [.vint 1, .vint 2])
        (.vseq .list [.vtype .intT, .vtype .intT]) "").1
      = .vseq .list [.vint 1, .vint 2] := by
  have h := rebuilt_as_list demoSem false .tuple [.vint 1, .vint 2] ""
  have h1 := h.1 (.vtype .intT)
  have h2 := h.2 .list [.vtype .intT, .vtype .intT] rfl
    (by simp [pyEq, kindClass])
  rw [h1, h2]
  constructor <;>
    simp [listOfLoop.eq_def, seqLoop.eq_def, sub.eq_def, subBody.eq_def,
      pyEq, pyNum?, pyTypeOf]

/-- C7: extra-key duality.  For the mapping schema with the single
field `a : T` and the input mapping with keys `a` (whose value matches
`T`) and `b`, the extra-keys policy `reject` (the default) yields
exactly the one diagnostic `('', 'extra key', b)` at the mapping's own
path and drops `b` from the output, while the policy `allow` yields no
diagnostics and copies `b`'s value into the output verbatim,
untransformed. -/
theorem extra_key_duality (S : PredSem F) (sa sb : String)
    (x y T x₁ x₂ : PyObj F) (hab : sa ≠ sb)
    (h₁ : sub S false x T ("." ++ sa) = (x₁, []))
    (h₂ : sub S true x T ("." ++ sa) = (x₂, [])) :
    validate S (.vdict [(.vstr sa, x), (.vstr sb, y)])
        (.vdict [(.vstr sa, T)]) false
      = (.vdict [(.vstr sa, x₁)], [.three "" "extra key" (.vstr sb)]) ∧
    validate S (.vdict [(.vstr sa, x), (.vstr sb, y)])
        (.vdict [(.vstr sa, T)]) true
      = (.vdict [(.vstr sa, x₂), (.vstr sb, y)], []) := by
  have hba : sb ≠ sa := Ne.symm hab
  constructor <;>
    simp [validate, sub_vdict_step, dictLoop.eq_def,
      unwrapOpt, pyLookup, pyEq, pyNum?, pyMemB, dictInsert,
      str_empty_append, h₁, h₂, hab, hba]

/-- C3: `Or` semantics.  For a nonempty choice list (written
`cs ++ [c]` resp. `pre ++ c :: post`): if every choice fails, the
diagnostics retained are exactly those produced by the last attempted
choice (earlier failures are discarded, never merged) and the value is
returned unchanged; on the first choice that produces no diagnostics,
its transformed value is adopted and no diagnostics are added. -/
theorem or_semantics (S : PredSem F) (ig : Bool) (obj : PyObj F)
    (path : String) :
    (∀ (cs : List (PyObj F)) (c : PyObj F),
      (∀ c' ∈ cs ++ [c], (sub S ig obj c' path).2 ≠ []) →
      sub S ig obj (.vor (cs ++ [c])) path
        = (obj, (sub S ig obj c path).2)) ∧
    (∀ (pre : List (PyObj F)) (c : PyObj F) (post : List (PyObj F)),
      (∀ c' ∈ pre, (sub S ig obj c' path).2 ≠ []) →
      (sub S ig obj c path).2 = [] →
      sub S ig obj (.vor (pre ++ c :: post)) path
        = ((sub S ig obj c path).1, [])) := by
  constructor
  · intro cs c hall
    have hl := orLoop_all_fail S ig obj path cs c
      fun c' hc' => hall c' (List.mem_append_left _ hc')
    have hc : (sub S ig obj c path).2 ≠ [] :=
      hall c (List.mem_append_right _ (by simp))
    rw [sub_vor_ne S ig obj _ path (by simp), hl,
      list_isEmpty_false _ hc]
    simp
  · intro pre c post hpre hc
    have hl := orLoop_first_success S ig obj path pre c post hpre hc
    rw [sub_vor_ne S ig obj _ path (by simp), hl, hc]
    simp

/-- Witness for C3 at concrete inputs: on the value `'x'` both choices
of `Or( int,float )` fail and exactly the second (last) choice's
diagnostic is retained; on the value `3`, the first choice of
`Or( str,int )` fails, the second succeeds, and `3` is adopted with no
diagnostics. -/
theorem or_semantics_witness :
    sub demoSem false (.vstr "x") (.vor [.vtype .intT, .vtype .floatT]) ""
      = (.vstr "x", [.three "" "not a float" (.vstr "x")]) ∧
    sub demoSem false (.vint 3) (.vor [.vtype .strT, .vtype .intT]) ""
      = (.vint 3, []) := by
  have hint : sub demoSem false (.vstr "x") (.vtype .intT) ""
      = (.vstr "x", [.three "" "not a int" (.vstr "x")]) := by
    simp [sub.eq_def, subBody.eq_def, pyEq, pyNum?, pyTypeOf, typeName]
  have hflo : sub demoSem false (.vstr "x") (.vtype .floatT) ""
      = (.vstr "x", [.three "" "not a float" (.vstr "x")]) := by
    simp [sub.eq_def, subBody.eq_def, pyEq, pyNum?, pyTypeOf, typeName]
  have hstr : sub demoSem false (.vint 3) (.vtype .strT) ""
      = (.vint 3, [.three "" "not a str" (.vint 3)]) := by
    simp [sub.eq_def, subBody.eq_def, pyEq, pyNum?, pyTypeOf, typeName]
  have hint3 : sub demoSem false (.vint 3) (.vtype .intT) ""
      = (.vint 3, []) := by
    simp [sub.eq_def, subBody.eq_def, pyEq, pyNum?, pyTypeOf]
  constructor
  · have h := (or_semantics demoSem false (.vstr "x") "").1
      [.vtype .intT] (.vtype .floatT) (by
        intro c' hc'
        simp only [List.mem_append, List.mem_singleton,
          List.mem_cons, List.not_mem_nil, or_false] at hc'
        rcases hc' with h' | h' <;> subst h' <;>
          simp [hint, hflo])
    simp only [List.singleton_append] at h
    rw [h, hflo]
  · have h := (or_semantics demoSem false (.vint 3) "").2
      [.vtype .strT] (.vtype .intT) [] (by
        intro c' hc'
        simp only [List.mem_cons, List.not_mem_nil, or_false] at hc'
        subst hc'
        simp [hstr]) (by simp [hint3])
    simp only [List.singleton_append] at h
    rw [h, hint3]

/-- C4 counterexample: the claim's chaining is false on the code.  For
the input `5` and `And( float,int )`, every choice is evaluated on the
original `5` (not on the previous choice's transformed value), so the
second choice sees the int `5` and passes, and validation returns
`(5, no diagnostics)` with the last choice's transformed value `5`
adopted — whereas the first choice transforms `5` to `5.0`, on which
the second choice would have produced `'not a int'` had its value been
chained in. -/
theorem and_not_chained :
    validate demoSem (.vint 5) (.vand [.vtype .floatT, .vtype .intT]) false
      = (.vint 5, []) ∧
    sub demoSem false (.vint 5) (.vtype .floatT) "" = (.vfloat 5, []) ∧
    sub demoSem false (.vfloat 5) (.vtype .intT) ""
      = (.vfloat 5, [.three "" "not a int" (.vfloat 5)]) := by
  refine ⟨?_, ?_, ?_⟩
  · simp [validate, sub.eq_def, subBody.eq_def, andLoop.eq_def, pyEq,
      pyNum?, pyTypeOf, pyFloatOfInt]
  · simp [sub.eq_def, subBody.eq_def, pyEq, pyNum?, pyTypeOf,
      pyFloatOfInt]
  · simp [sub.eq_def, subBody.eq_def, pyEq, pyNum?, pyTypeOf, typeName]

/-- C4 amended: `And` semantics without chaining.  Choices are
evaluated in order, each applied to the original value; on the first
choice that produces diagnostics, exactly those diagnostics are
retained, the value is returned unchanged and no later choice is
evaluated; if no choice fails, the transformed value of the *last*
choice (computed from the original value, not chained) is adopted with
no diagnostics. -/
theorem and_semantics (S : PredSem F) (ig : Bool) (obj : PyObj F)
    (path : String) :
    (∀ (pre : List (PyObj F)) (c : PyObj F) (post : List (PyObj F)),
      (∀ c' ∈ pre, (sub S ig obj c' path).2 = []) →
      (sub S ig obj c path).2 ≠ [] →
      sub S ig obj (.vand (pre ++ c :: post)) path
        = (obj, (sub S ig obj c path).2)) ∧
    (∀ (cs : List (PyObj F)) (c : PyObj F),
      (∀ c' ∈ cs ++ [c], (sub S ig obj c' path).2 = []) →
      sub S ig obj (.vand (cs ++ [c])) path
        = ((sub S ig obj c path).1, [])) := by
  constructor
  · intro pre c post hpre hc
    have hl := andLoop_first_fail S ig obj path pre c post hpre hc
    rw [sub_vand_ne S ig obj _ path (by simp), hl,
      list_isEmpty_false _ hc]
    simp
  · intro cs c hall
    have hl := andLoop_all_pass S ig obj path cs c
      fun c' hc' => hall c' (List.mem_append_left _ hc')
    have hc : (sub S ig obj c path).2 = [] :=
      hall c (List.mem_append_right _ (by simp))
    rw [sub_vand_ne S ig obj _ path (by simp), hl, hc]
    simp

/-- Witness for C4 at concrete inputs: on `3`, `And( str,int )` fails
at its first choice and retains exactly that choice's `'not a str'`
diagnostic; on `5`, both choices of `And( int,float )` pass and the
last choice's transformed value `5.0` is adopted. -/
theorem and_semantics_witness :
    sub demoSem false (.vint 3) (.vand [.vtype .strT, .vtype .intT]) ""
      = (.vint 3, [.three "" "not a str" (.vint 3)]) ∧
    sub demoSem false (.vint 5) (.vand [.vtype .intT, .vtype .floatT]) ""
      = (.vfloat 5, []) := by
  have hstr : sub demoSem false (.vint 3) (.vtype .strT) ""
      = (.vint 3, [.three "" "not a str" (.vint 3)]) := by
    simp [sub.eq_def, subBody.eq_def, pyEq, pyNum?, pyTypeOf, typeName]
  have hint5 : sub demoSem false (.vint 5) (.vtype .intT) ""
      = (.vint 5, []) := by
    simp [sub.eq_def, subBody.eq_def, pyEq, pyNum?, pyTypeOf]
  have hflo5 : sub demoSem false (.vint 5) (.vtype .floatT) ""
      = (.vfloat 5, []) := by
    simp [sub.eq_def, subBody.eq_def, pyEq, pyNum?, pyFloatOfInt]
  constructor
  · have h := (and_semantics demoSem false (.vint 3) "").1
      [] (.vtype .strT) [.vtype .intT] (by simp) (by simp [hstr])
    rw [List.nil_append] at h
    rw [h, hstr]
  · have h := (and_semantics demoSem false (.vint 5) "").2
      [.vtype .intT] (.vtype .floatT) (by
        intro c' hc'
        simp only [List.mem_append, List.mem_singleton,
          List.mem_cons, List.not_mem_nil, or_false] at hc'
        rcases hc' with h' | h' <;> subst h' <;>
          simp [hint5, hflo5])
    simp only [List.singleton_append] at h
    rw [h, hflo5]

/-- C1 counterexample: a fault raised inside a user predicate is *not*
converted to a `(path, 'failure', faultDescription)` diagnostic.  The
1-parameter predicate `boom` raises; the call boundary inside the
callable branch catches it first and produces the two-tuple diagnostic
`('', 'boom call raised division by zero')`, and no `'failure'`
diagnostic appears in the returned set. -/
theorem predicate_fault_not_failure :
    validate demoSem (.vint 7) (.vfunc .boom) false
      = (.vint 7, [.two "" "boom call raised division by zero"]) ∧
    (validate demoSem (.vint 7) (.vfunc .boom) false).2.all
      (fun d => !isFailureDiag d) = true := by
  have h : validate demoSem (.vint 7) (.vfunc .boom) false
      = (.vint 7, [.two "" "boom call raised division by zero"]) := by
    simp [validate, sub.eq_def, subBody.eq_def, pyEq, pyNum?, demoSem]
  exact ⟨h, by rw [h]; rfl⟩

/-- C1 amended: `validate` never raises — `sub` is total, and every
runtime fault is converted to a diagnostic at the subtree where it
occurred, with the subtree's value returned unchanged.  A fault raised
in the frame's own matching work (outside a predicate call) is caught
by the safety net and becomes `(path, 'failure', faultDescription)`,
appended after the diagnostics the frame had already produced; a fault
raised inside a user predicate call is caught at the call boundary and
becomes the two-tuple `(path, '{name} call raised {faultDescription}')`. -/
theorem safety_net (S : PredSem F) (ig : Bool) (obj : PyObj F)
    (path : String) :
    (∀ (exp : PyObj F) (ds : List (Diag F)) (e : String),
      subBody S ig obj exp path = .error (ds, e) →
      sub S ig obj exp path
        = (obj, ds ++ [.three path "failure" (.vexn e)])) ∧
    (∀ (f : F) (e : String),
      (S.arity f = 1 ∨ S.arity f = 2) →
      S.call f (if S.arity f == 1 then [obj] else [.vstr path, obj])
        = .error e →
      sub S ig obj (.vfunc f) path
        = (obj, [.two path (S.name f ++ " call raised " ++ e)])) := by
  constructor
  · intro exp ds e h
    rw [sub.eq_def, h]
  · intro f e harity hcall
    rw [sub_vfunc_step]
    have hn : (S.arity f != 1 && S.arity f != 2) = false := by
      rcases harity with h | h <;> simp [h]
    rw [hn]
    simp only [Bool.false_eq_true, if_false, hcall]

/-- Witness for C1 at concrete inputs: the frame-level fault of
iterating the non-iterable `5` under `ListOf( int )` becomes the
`(path, 'failure', e)` diagnostic with the value returned unchanged,
and the raising predicate `boom` on the value `7` produces the
`'boom call raised ...'` two-tuple. -/
theorem safety_net_witness :
    sub demoSem false (.vint 5) (.vlistOf (.vtype .intT)) ""
      = (.vint 5, [.three "" "failure"
          (.vexn "'int' object is not iterable")]) ∧
    sub demoSem false (.vint 7) (.vfunc .boom) ""
      = (.vint 7, [.two "" "boom call raised division by zero"]) := by
  have hbody : subBody demoSem false (.vint 5) (.vlistOf (.vtype .intT)) ""
      = .error ([], "'int' object is not iterable") := by
    rw [subBody.eq_def]
    simp [pyEq, pyNum?, pyIter, notIterableMsg, pyTypeOf, typeName]
  constructor
  · have h := (safety_net demoSem false (.vint 5) "").1
      (.vlistOf (.vtype .intT)) [] "'int' object is not iterable" hbody
    rw [h]
    rfl
  · exact (safety_net demoSem false (.vint 7) "").2 .boom
      "division by zero" (Or.inl rfl) rfl

/-- Witness for C7 at concrete inputs: schema `{a: int}` and input
`{a: 1, b: 'q'}` under both extra-keys policies. -/
theorem extra_key_duality_witness :
    validate demoSem
        (.vdict [(.vstr "a", .vint 1), (.vstr "b", .vstr "q")])
        (.vdict [(.vstr "a", .vtype .intT)]) false
      = (.vdict [(.vstr "a", .vint 1)],
          [.three "" "extra key" (.vstr "b")]) ∧
    validate demoSem
        (.vdict [(.vstr "a", .vint 1), (.vstr "b", .vstr "q")])
        (.vdict [(.vstr "a", .vtype .intT)]) true
      = (.vdict [(.vstr "a", .vint 1), (.vstr "b", .vstr "q")], []) := by
  have hx : ∀ ig : Bool, sub demoSem ig (.vint 1) (.vtype .intT) ("." ++ "a")
      = (.vint 1, []) := by
    intro ig
    simp [sub.eq_def, subBody.eq_def, pyEq, pyNum?, pyTypeOf]
  exact extra_key_duality demoSem "a" "b" (.vint 1) (.vstr "q")
    (.vtype .intT) (.vint 1) (.vint 1) (by decide) (hx false) (hx true)

/-! ### Auxiliary lemmas for idempotence on plain descriptors -/

theorem pyEq_vstr_vstr (s t : String) :
    pyEq (PyObj.vstr (F := F) s) (.vstr t) = (s == t) := by
  simp [pyEq]

theorem pyEq_vstr_refl (s : String) :
    pyEq (PyObj.vstr (F := F) s) (.vstr s) = true := by
  simp [pyEq]

theorem pyEq_vstr_right (a : PyObj F) (s : String)
    (h : pyEq a (.vstr s) = true) : a = .vstr s := by
  cases a <;> simp_all [pyEq, pyNum?]

theorem pyLookup_eq_none (kvs : List (PyObj F × PyObj F)) (k : PyObj F)
    (h : ∀ p ∈ kvs, pyEq k p.1 = false) : pyLookup kvs k = none := by
  induction kvs with
  | nil => rfl
  | cons p rest ih =>
    rw [pyLookup]
    cases p with
    | mk k' v' =>
      rw [h ⟨k', v'⟩ (by simp)]
      simp only [Bool.false_eq_true, if_false]
      exact ih fun p hp => h p (List.mem_cons_of_mem _ hp)

theorem dictInsert_append (kvs : List (PyObj F × PyObj F))
    (k v : PyObj F) (h : ∀ p ∈ kvs, pyEq k p.1 = false) :
    dictInsert kvs k v = kvs ++ [(k, v)] := by
  induction kvs with
  | nil => rfl
  | cons p rest ih =>
    rw [dictInsert]
    cases p with
    | mk k' v' =>
      rw [h ⟨k', v'⟩ (by simp)]
      simp only [Bool.false_eq_true, if_false, List.cons_append,
        List.cons.injEq, true_and]
      exact ih fun p hp => h p (List.mem_cons_of_mem _ hp)

theorem pyMemB_of_mem_refl (x : PyObj F) (l : List (PyObj F))
    (hx : x ∈ l) (hr : pyEq x x = true) : pyMemB x l = true := by
  induction l with
  | nil => exact absurd hx (List.not_mem_nil x)
  | cons y ys ih =>
    rw [pyMemB]
    rcases List.mem_cons.mp hx with h | h
    · subst h
      rw [hr]
      rfl
    · rw [ih h]
      simp

theorem seqLoop_length (S : PredSem F) (ig : Bool) (path : String) :
    ∀ (es os : List (PyObj F)) (i : Nat), os.length = es.length →
      (seqLoop S ig os es path i).1.length = es.length := by
  intro es
  induction es with
  | nil =>
    intro os i h
    cases os with
    | nil => rw [seqLoop.eq_def]
    | cons o os' => simp at h
  | cons e es' ih =>
    intro os i h
    cases os with
    | nil => simp at h
    | cons o os' =>
      rw [seqLoop.eq_def]
      simp only [List.length_cons]
      rw [ih os' (i + 1) (by simpa using h)]

theorem fieldKeys_cons (a b : PyObj F)
    (rest : List (PyObj F × PyObj F)) :
    fieldKeys ((a, b) :: rest) = (unwrapOpt a).1 :: fieldKeys rest := rfl

theorem dictOut_keys (S : PredSem F) (ig : Bool) (path : String) :
    ∀ (fields okv : List (PyObj F × PyObj F)) (p : PyObj F × PyObj F),
      p ∈ dictOut S ig fields okv path → p.1 ∈ fieldKeys fields := by
  intro fields
  induction fields with
  | nil =>
    intro okv p hp
    rw [dictOut] at hp
    exact absurd hp (List.not_mem_nil p)
  | cons f rest ih =>
    intro okv p hp
    obtain ⟨expk, expv⟩ := f
    rw [dictOut] at hp
    rw [fieldKeys_cons]
    rcases hl : pyLookup okv (unwrapOpt expk).1 with _ | v <;>
      simp only [hl] at hp
    · exact List.mem_cons_of_mem _ (ih okv p hp)
    · cases hk : (unwrapOpt expk).1 <;> simp only [hk] at hp ⊢ <;>
        try exact List.mem_cons_of_mem _ (ih okv p hp)
      rcases List.mem_cons.mp hp with h | h
      · subst h
        exact List.mem_cons_self _ _
      · exact List.mem_cons_of_mem _ (ih okv p h)

theorem keyStrs?_fieldKeys :
    ∀ (fields : List (PyObj F × PyObj F)) (ss : List String),
      keyStrs? fields = some ss →
      fieldKeys fields = ss.map PyObj.vstr := by
  intro fields
  induction fields with
  | nil =>
    intro ss h
    rw [keyStrs?] at h
    cases h
    rfl
  | cons f rest ih =>
    intro ss h
    obtain ⟨expk, expv⟩ := f
    rw [keyStrs?] at h
    rw [fieldKeys_cons]
    cases hk : (unwrapOpt expk).1 <;> simp only [hk] at h <;>
      try exact Option.noConfusion h
    rcases hr : keyStrs? rest with _ | ss' <;> simp only [hr] at h
    · exact Option.noConfusion h
    · simp only [Option.map_some', Option.some.injEq] at h
      subst h
      simp only [List.map_cons, List.cons.injEq, true_and]
      exact ih ss' hr

theorem pyEq_nondict_to_vdict (a : PyObj F) (h : isDict a = false)
    (fs : List (PyObj F × PyObj F)) : pyEq a (.vdict fs) = false := by
  cases a <;> simp_all [pyEq, pyNum?, isDict]

theorem plainB_vseq (k : SeqKind) (es : List (PyObj F)) :
    plainB (.vseq k es) = plainListB es := by
  simp [plainB]

theorem plainB_vlistOf (c : PyObj F) :
    plainB (.vlistOf c) = plainB c := by
  simp [plainB]

theorem plainB_vor (cs : List (PyObj F)) :
    plainB (.vor cs) = false := by
  simp [plainB]

theorem plainB_vand (cs : List (PyObj F)) :
    plainB (.vand cs) = false := by
  simp [plainB]

theorem plainB_vfunc (f : F) : plainB (.vfunc f) = false := by
  simp [plainB]

theorem plainB_vdict_elim (fields : List (PyObj F × PyObj F))
    (h : plainB (.vdict fields) = true) :
    ∃ ss, keyStrs? fields = some ss ∧ strDistinct ss = true ∧
      plainFieldsB fields = true := by
  simp only [plainB, Bool.and_eq_true] at h
  rcases hk : keyStrs? fields with _ | ss <;> rw [hk] at h
  · simp at h
  · exact ⟨ss, rfl, h.1, h.2⟩

theorem plainListB_mem (es : List (PyObj F)) (h : plainListB es = true) :
    ∀ e ∈ es, plainB e = true := by
  induction es with
  | nil => intro e he; exact absurd he (List.not_mem_nil e)
  | cons x xs ih =>
    rw [plainListB, Bool.and_eq_true] at h
    intro e he
    rcases List.mem_cons.mp he with h' | h'
    · subst h'; exact h.1
    · exact ih h.2 e h'

theorem plainFieldsB_mem (fields : List (PyObj F × PyObj F))
    (h : plainFieldsB fields = true) :
    ∀ f ∈ fields, plainB f.2 = true := by
  induction fields with
  | nil => intro f hf; exact absurd hf (List.not_mem_nil f)
  | cons x xs ih =>
    obtain ⟨k, v⟩ := x
    rw [plainFieldsB, Bool.and_eq_true] at h
    intro f hf
    rcases List.mem_cons.mp hf with h' | h'
    · subst h'; exact h.1
    · exact ih h.2 f h'

theorem sub_vseq_nonseq (S : PredSem F) (ig : Bool) (obj : PyObj F)
    (hL : isList obj = false) (k : SeqKind) (es : List (PyObj F))
    (path : String) :
    sub S ig obj (.vseq k es) path
      = (obj, [.three path "array expected" obj]) := by
  have hpe := pyEq_nonseq_to_vseq obj hL k es
  rw [sub.eq_def, subBody.eq_def]
  cases obj <;> simp_all [isList]

theorem sub_vdict_nondict (S : PredSem F) (ig : Bool) (obj : PyObj F)
    (hD : isDict obj = false) (fs : List (PyObj F × PyObj F))
    (path : String) :
    sub S ig obj (.vdict fs) path
      = (obj, [.three path "dictionary expected" obj]) := by
  have hpe := pyEq_nondict_to_vdict obj hD fs
  rw [sub.eq_def, subBody.eq_def]
  cases obj <;> simp_all [isDict]

theorem sub_float_marker_accept (S : PredSem F) (ig : Bool) (q : Rat)
    (path : String) :
    sub S ig (.vfloat q) (.vtype .floatT) path = (.vfloat q, []) := by
  rw [sub.eq_def, subBody.eq_def]
  simp [pyEq, pyNum?, pyTypeOf]

theorem sub_fallback (S : PredSem F) (ig : Bool) (obj exp : PyObj F)
    (path : String) (h : isFallbackDesc exp = true)
    (hpe : pyEq obj exp = false) :
    sub S ig obj exp path =
      (if pyEq exp obj then (obj, [])
      else (obj, [.three path ("!= " ++ pyToStr exp) obj])) := by
  rw [sub.eq_def, subBody.eq_def]
  cases exp <;> simp_all [isFallbackDesc] <;> split_ifs <;> simp_all

set_option maxHeartbeats 1000000 in
/-- Outside the widening arm, the type-marker branch returns the value
unchanged (possibly with a diagnostic). -/
theorem sub_vtype_fst (S : PredSem F) (ig : Bool) (obj : PyObj F)
    (t : PyType) (path : String)
    (hpe : pyEq obj (.vtype t) = false)
    (hno : ¬ ∃ n, obj = PyObj.vint n ∧ t = PyType.floatT) :
    (sub S ig obj (.vtype t) path).1 = obj := by
  rw [sub.eq_def, subBody.eq_def]
  simp only [hpe, Bool.false_eq_true, if_false]
  cases obj <;> try (cases t <;> rfl)
  case vint n =>
    cases t <;> try rfl
    exact absurd ⟨n, rfl, rfl⟩ hno
  case vseq k xs => cases k <;> cases t <;> rfl

/-- The field loop of the source, run with distinct string keys and
arbitrary accumulators, never faults and produces exactly the recorded
keys, the rebuilt entries (`dictOut`) and the appended diagnostics
(`dictDiags`). -/
theorem dictLoop_char (S : PredSem F) (ig : Bool) (path : String) :
    ∀ (fields : List (PyObj F × PyObj F)) (ss : List String),
      keyStrs? fields = some ss → strDistinct ss = true →
      ∀ (okv obj2₀ : List (PyObj F × PyObj F)) (keys₀ : List (PyObj F))
        (ds₀ : List (Diag F)),
        (∀ s ∈ ss, ∀ p ∈ obj2₀, pyEq (PyObj.vstr s) p.1 = false) →
        dictLoop S ig fields okv path keys₀ obj2₀ ds₀
          = .ok (keys₀ ++ fieldKeys fields,
              obj2₀ ++ dictOut S ig fields okv path,
              ds₀ ++ dictDiags S ig fields okv path) := by
  intro fields
  induction fields with
  | nil =>
    intro ss hk hd okv obj2₀ keys₀ ds₀ hdisj
    rw [dictLoop, dictOut, dictDiags]
    simp [fieldKeys]
  | cons f rest ih =>
    intro ss hk hd okv obj2₀ keys₀ ds₀ hdisj
    obtain ⟨expk, expv⟩ := f
    rw [keyStrs?] at hk
    cases hkk : (unwrapOpt expk).1 <;> simp only [hkk] at hk <;>
      try exact Option.noConfusion hk
    case vstr s =>
    rcases hr : keyStrs? rest with _ | ss' <;> simp only [hr] at hk
    · exact Option.noConfusion hk
    simp only [Option.map_some', Option.some.injEq] at hk
    subst hk
    rw [strDistinct, Bool.and_eq_true] at hd
    have hs_mem : s ∈ s :: ss' := List.mem_cons_self _ _
    rw [dictLoop, dictOut, dictDiags]
    simp only [hkk]
    have hdisj' : ∀ s' ∈ ss', ∀ p ∈ obj2₀,
        pyEq (PyObj.vstr s') p.1 = false :=
      fun s' hs' p hp => hdisj s' (List.mem_cons_of_mem _ hs') p hp
    rcases hl : pyLookup okv (PyObj.vstr s) with _ | v
    · cases hm : (unwrapOpt expk).2
      · have IH := ih ss' hr hd.2 okv obj2₀ (keys₀ ++ [PyObj.vstr s])
          ds₀ hdisj'
        simp only [hm, Bool.false_eq_true, if_false, IH]
        simp [fieldKeys_cons, hkk]
      · have IH := ih ss' hr hd.2 okv obj2₀ (keys₀ ++ [PyObj.vstr s])
          (ds₀ ++ [Diag.three path "not found" (PyObj.vstr s)]) hdisj'
        simp only [hm, if_true, IH]
        simp [fieldKeys_cons, hkk]
    · have hdisj2 : ∀ s' ∈ ss', ∀ p ∈ obj2₀ ++ [(PyObj.vstr s,
          (sub S ig v expv (path ++ "." ++ s)).1)],
          pyEq (PyObj.vstr s') p.1 = false := by
        intro s' hs' p hp
        rcases List.mem_append.mp hp with h' | h'
        · exact hdisj' s' hs' p h'
        · rcases List.mem_singleton.mp h' with rfl
          have hne : s ≠ s' := by
            have := hd.1
            rw [List.all_eq_true] at this
            simpa using this s' hs'
          simp [pyEq_vstr_vstr, Ne.symm hne]
      have hins := dictInsert_append obj2₀ (PyObj.vstr s)
        ((sub S ig v expv (path ++ "." ++ s)).1)
        (fun p hp => hdisj s hs_mem p hp)
      have IH := ih ss' hr hd.2 okv
        (obj2₀ ++ [(PyObj.vstr s, (sub S ig v expv (path ++ "." ++ s)).1)])
        (keys₀ ++ [PyObj.vstr s])
        (ds₀ ++ (sub S ig v expv (path ++ "." ++ s)).2) hdisj2
      simp only [hins, IH]
      simp [fieldKeys_cons, hkk]

/-- Looking up a schema field's (string) key in the rebuilt mapping
returns exactly the transformed value of that field when the key was
found in the original value, and nothing otherwise. -/
theorem dictOut_lookup (S : PredSem F) (ig : Bool) (path : String) :
    ∀ (fields : List (PyObj F × PyObj F)) (ss : List String)
      (okv : List (PyObj F × PyObj F)),
      keyStrs? fields = some ss → strDistinct ss = true →
      ∀ f ∈ fields, ∀ s, (unwrapOpt f.1).1 = .vstr s →
        pyLookup (dictOut S ig fields okv path) (.vstr s)
          = (pyLookup okv (.vstr s)).map
              (fun v => (sub S ig v f.2 (path ++ "." ++ s)).1) := by
  intro fields
  induction fields with
  | nil =>
    intro ss okv hk hd f hf
    exact absurd hf (List.not_mem_nil f)
  | cons f0 rest ih =>
    intro ss okv hk hd f hf s hfs
    obtain ⟨expk, expv⟩ := f0
    rw [keyStrs?] at hk
    cases hkk : (unwrapOpt expk).1 <;> simp only [hkk] at hk <;>
      try exact Option.noConfusion hk
    case vstr s₀ =>
    rcases hr : keyStrs? rest with _ | ss' <;> simp only [hr] at hk
    · exact Option.noConfusion hk
    simp only [Option.map_some', Option.some.injEq] at hk
    subst hk
    rw [strDistinct, Bool.and_eq_true] at hd
    rcases List.mem_cons.mp hf with hf0 | hfr
    · subst hf0
      simp only [hkk] at hfs
      rcases PyObj.vstr.injEq .. |>.mp hfs.symm with rfl
      rw [dictOut]
      simp only [hkk]
      rcases hl : pyLookup okv (PyObj.vstr s) with _ | v <;>
        simp only [hl]
      · simp only [Option.map_none']
        apply pyLookup_eq_none
        intro p hp
        have hpk := dictOut_keys S ig path rest okv p hp
        rw [keyStrs?_fieldKeys rest ss' hr] at hpk
        rcases List.mem_map.mp hpk with ⟨s', hs', heq⟩
        have hne : s != s' := by
          rw [List.all_eq_true] at hd
          exact hd.1 s' hs'
        rw [← heq, pyEq_vstr_vstr]
        simpa using hne
      · rw [pyLookup]
        simp [pyEq_vstr_refl]
    · have hsmem : s ∈ ss' := by
        have h1 : (unwrapOpt f.1).1 ∈ fieldKeys rest :=
          List.mem_map_of_mem _ hfr
        rw [keyStrs?_fieldKeys rest ss' hr, hfs] at h1
        rcases List.mem_map.mp h1 with ⟨s', hs', heq⟩
        rcases PyObj.vstr.injEq .. |>.mp heq with rfl
        exact hs'
      rw [dictOut]
      simp only [hkk]
      rcases hl : pyLookup okv (PyObj.vstr s₀) with _ | v <;>
        simp only [hl]
      · exact ih ss' okv hr hd.2 f hfr s hfs
      · rw [pyLookup]
        have hne : s ≠ s₀ := by
          rw [List.all_eq_true] at hd
          have := hd.1 s hsmem
          simp at this
          exact fun hss => this hss.symm
        rw [pyEq_vstr_vstr]
        simp only [beq_eq_false_iff_ne.mpr hne, Bool.false_eq_true,
          if_false]
        exact ih ss' okv hr hd.2 f hfr s hfs

theorem isList_elim (obj : PyObj F) (h : isList obj = true) :
    ∃ k xs, obj = PyObj.vseq k xs := by
  cases obj <;> simp_all [isList]

theorem isDict_elim (obj : PyObj F) (h : isDict obj = true) :
    ∃ kvs, obj = PyObj.vdict kvs := by
  cases obj <;> simp_all [isDict]

/-- A fallback-arm descriptor that matched once keeps matching: the
value is returned unchanged in both passes. -/
theorem fallback_idem (S : PredSem F) (ig : Bool) (obj exp : PyObj F)
    (path : String) (hfb : isFallbackDesc exp = true)
    (hpe : pyEq obj exp = false)
    (h1 : (sub S ig obj exp path).2 = []) :
    sub S ig (sub S ig obj exp path).1 exp path
      = ((sub S ig obj exp path).1, []) := by
  have hstep := sub_fallback S ig obj exp path hfb hpe
  cases hq : pyEq exp obj
  · rw [hstep, hq] at h1
    simp at h1
  · have h2 : sub S ig obj exp path = (obj, []) := by
      rw [hstep, hq]
      simp
    rw [h2]
    exact h2

/-- The type-marker branch is idempotent: either the value was accepted
unchanged, or it was the int-to-float widening, whose float output is
accepted unchanged by the same marker. -/
theorem vtype_idem (S : PredSem F) (ig : Bool) (obj : PyObj F)
    (t : PyType) (path : String)
    (hpe : pyEq obj (.vtype t) = false)
    (h1 : (sub S ig obj (.vtype t) path).2 = []) :
    sub S ig (sub S ig obj (.vtype t) path).1 (.vtype t) path
      = ((sub S ig obj (.vtype t) path).1, []) := by
  by_cases hw : ∃ n, obj = PyObj.vint n ∧ t = PyType.floatT
  · obtain ⟨n, rfl, rfl⟩ := hw
    have hs := sub_vtype_widen S ig n path
    cases hq : pyFloatOfInt n with
    | none =>
      simp only [hq] at hs
      rw [hs] at h1
      exact absurd h1 (by simp)
    | some q =>
      simp only [hq] at hs
      rw [hs]
      exact sub_float_marker_accept S ig q path
  · have hfst := sub_vtype_fst S ig obj t path hpe hw
    have h2 : sub S ig obj (.vtype t) path = (obj, []) := by
      have heta := Prod.mk.eta (p := sub S ig obj (.vtype t) path)
      rw [hfst, h1] at heta
      exact heta.symm
    rw [h2]
    exact h2

/-- Every key of the rebuilt mapping is one of the schema's recorded
keys, so the extra-keys pass of a revalidation finds nothing. -/
theorem dictOut_extra_nil (S : PredSem F) (ig : Bool) (path : String)
    (fields : List (PyObj F × PyObj F)) (ss : List String)
    (okv : List (PyObj F × PyObj F))
    (hks : keyStrs? fields = some ss) :
    ((dictOut S ig fields okv path).map Prod.fst).filter
      (fun k => !(pyMemB k (fieldKeys fields))) = [] := by
  rw [List.filter_eq_nil_iff]
  intro k hk
  rcases List.mem_map.mp hk with ⟨p, hp, rfl⟩
  have h1 := dictOut_keys S ig path fields okv p hp
  have h2 := h1
  rw [keyStrs?_fieldKeys fields ss hks] at h2
  rcases List.mem_map.mp h2 with ⟨s, _, heq⟩
  have hmem : pyMemB p.1 (fieldKeys fields) = true := by
    apply pyMemB_of_mem_refl _ _ h1
    rw [← heq, pyEq_vstr_refl]
  simp [hmem]

mutual

/-- Idempotence of the matcher on its own successful output, for plain
descriptors under the default (reject) extra-keys policy. -/
theorem subIdem (S : PredSem F) (exp : PyObj F)
    (hplain : plainB exp = true) (obj : PyObj F) (path : String)
    (h1 : (sub S false obj exp path).2 = []) :
    sub S false (sub S false obj exp path).1 exp path
      = ((sub S false obj exp path).1, []) := by
  by_cases hpe : pyEq obj exp = true
  · rw [sub_of_pyEq S false obj exp path hpe] at h1 ⊢
    exact sub_of_pyEq S false obj exp path hpe
  · replace hpe : pyEq obj exp = false := by
      cases h : pyEq obj exp
      · rfl
      · exact absurd h hpe
    cases exp with
    | vnone => exact fallback_idem S false obj _ path rfl hpe h1
    | vbool b => exact fallback_idem S false obj _ path rfl hpe h1
    | vint n => exact fallback_idem S false obj _ path rfl hpe h1
    | vfloat q => exact fallback_idem S false obj _ path rfl hpe h1
    | vstr s => exact fallback_idem S false obj _ path rfl hpe h1
    | voptional k => exact fallback_idem S false obj _ path rfl hpe h1
    | vforce v => exact fallback_idem S false obj _ path rfl hpe h1
    | verror m => exact fallback_idem S false obj _ path rfl hpe h1
    | vexn m => exact fallback_idem S false obj _ path rfl hpe h1
    | vtype t => exact vtype_idem S false obj t path hpe h1
    | vor cs =>
      rw [plainB_vor] at hplain
      exact Bool.noConfusion hplain
    | vand cs =>
      rw [plainB_vand] at hplain
      exact Bool.noConfusion hplain
    | vfunc f =>
      rw [plainB_vfunc] at hplain
      exact Bool.noConfusion hplain
    | vseq k' es =>
      rw [plainB_vseq] at hplain
      by_cases hL : isList obj = true
      · obtain ⟨k, os, rfl⟩ := isList_elim obj hL
        by_cases hlen : os.length = es.length
        · rw [sub_vseq_eqlen S false k k' os es path hpe hlen] at h1 ⊢
          by_cases hpe2 : pyEq
              (PyObj.vseq .list (seqLoop S false os es path 0).1)
              (.vseq k' es) = true
          · rw [sub_of_pyEq S false _ _ path hpe2]
          · replace hpe2 : pyEq
                (PyObj.vseq .list (seqLoop S false os es path 0).1)
                (.vseq k' es) = false := by
              cases h : pyEq (PyObj.vseq .list
                  (seqLoop S false os es path 0).1) (.vseq k' es)
              · rfl
              · exact absurd h hpe2
            rw [sub_vseq_eqlen S false .list k' _ es path hpe2
              (seqLoop_length S false path es os 0 hlen)]
            rw [seqLoopIdem S es hplain os path 0 hlen h1]
        · rw [sub_vseq_badlen S false k k' os es path hpe hlen] at h1
          simp at h1
      · replace hL : isList obj = false := by
          cases h : isList obj
          · rfl
          · exact absurd h hL
        rw [sub_vseq_nonseq S false obj hL k' es path] at h1
        simp at h1
    | vlistOf check =>
      rw [plainB_vlistOf] at hplain
      rcases hit : pyIter obj with _ | xs
      · rw [sub_vlistOf_noiter S false obj check path hit] at h1
        simp at h1
      · rw [sub_vlistOf_iter S false obj check xs path hit] at h1 ⊢
        rw [sub_vlistOf_iter S false
          (PyObj.vseq .list (listOfLoop S false check xs path 0).1) check
          (listOfLoop S false check xs path 0).1 path rfl]
        rw [listOfLoopIdem S check hplain xs path 0 h1]
    | vdict fields =>
      obtain ⟨ss, hks, hdist, hpf⟩ := plainB_vdict_elim fields hplain
      by_cases hD : isDict obj = true
      · obtain ⟨okv, rfl⟩ := isDict_elim obj hD
        have hdisj0 : ∀ s ∈ ss, ∀ p ∈ ([] : List (PyObj F × PyObj F)),
            pyEq (PyObj.vstr s) p.1 = false :=
          fun s hs p hp => absurd hp (List.not_mem_nil p)
        rw [sub_vdict_step S false okv fields path hpe] at h1 ⊢
        rw [dictLoop_char S false path fields ss hks hdist okv [] [] []
          hdisj0] at h1 ⊢
        simp only [List.nil_append] at h1 ⊢
        have hDE : dictDiags S false fields okv path = [] ∧
            ((okv.map Prod.fst).filter
              fun k => !(pyMemB k (fieldKeys fields))).isEmpty = true := by
          cases hc : ((okv.map Prod.fst).filter
              fun k => !(pyMemB k (fieldKeys fields))).isEmpty
          · rw [hc] at h1
            simp only [Bool.false_eq_true, if_false] at h1
            rcases List.append_eq_nil.mp h1 with ⟨hDn, hmap⟩
            rw [List.map_eq_nil_iff] at hmap
            rw [hmap] at hc
            exact absurd hc (by simp)
          · rw [hc] at h1
            simp only [if_true] at h1
            exact ⟨h1, rfl⟩
        obtain ⟨hDnil, hEempty⟩ := hDE
        rw [hEempty]
        simp only [if_true, hDnil]
        by_cases hpe2 : pyEq
            (PyObj.vdict (dictOut S false fields okv path))
            (.vdict fields) = true
        · exact sub_of_pyEq S false _ _ path hpe2
        · replace hpe2 : pyEq
              (PyObj.vdict (dictOut S false fields okv path))
              (.vdict fields) = false := by
            cases h : pyEq (PyObj.vdict
                (dictOut S false fields okv path)) (.vdict fields)
            · rfl
            · exact absurd h hpe2
          rw [sub_vdict_step S false _ fields path hpe2]
          rw [dictLoop_char S false path fields ss hks hdist
            (dictOut S false fields okv path) [] [] [] hdisj0]
          simp only [List.nil_append]
          have HL : ∀ f ∈ fields, ∀ s, (unwrapOpt f.1).1 = .vstr s →
              pyLookup (dictOut S false fields okv path) (.vstr s)
                = (pyLookup okv (.vstr s)).map
                    (fun v => (sub S false v f.2 (path ++ "." ++ s)).1) :=
            fun f hf s hs =>
              dictOut_lookup S false path fields ss okv hks hdist f hf s hs
          have hIdem := dictOutIdem S fields hpf ss hks okv
            (dictOut S false fields okv path) path HL hDnil
          rw [hIdem.1, hIdem.2]
          rw [dictOut_extra_nil S false path fields ss okv hks]
          simp
      · replace hD : isDict obj = false := by
          cases h : isDict obj
          · rfl
          · exact absurd h hD
        rw [sub_vdict_nondict S false obj hD fields path] at h1
        simp at h1
termination_by (sizeOf exp, 2)
decreasing_by all_goals (subst_vars; decreasing_tactic)

/-- Element-wise idempotence of the fixed-sequence loop. -/
theorem seqLoopIdem (S : PredSem F) (es : List (PyObj F))
    (hplain : plainListB es = true) (os : List (PyObj F))
    (path : String) (i : Nat) (hlen : os.length = es.length)
    (h1 : (seqLoop S false os es path i).2 = []) :
    seqLoop S false (seqLoop S false os es path i).1 es path i
      = ((seqLoop S false os es path i).1, []) := by
  cases es with
  | nil =>
    rcases List.length_eq_zero.mp hlen with rfl
    rw [seqLoop.eq_def]
    rw [seqLoop.eq_def]
  | cons e es' =>
    cases os with
    | nil => simp at hlen
    | cons o os' =>
      rw [plainListB, Bool.and_eq_true] at hplain
      rw [seqLoop.eq_def] at h1 ⊢
      simp only [] at h1 ⊢
      rcases List.append_eq_nil.mp h1 with ⟨hr, hrest⟩
      have he := subIdem S e hplain.1 o
        (path ++ "[" ++ toString i ++ "]") hr
      have hrec := seqLoopIdem S es' hplain.2 os' path (i + 1)
        (by simpa using hlen) hrest
      rw [seqLoop.eq_def]
      simp only []
      rw [he] at *
      rw [hrec]
      simp [hr]
termination_by (sizeOf es, 3)
decreasing_by all_goals (subst_vars; decreasing_tactic)

/-- Element-wise idempotence of the `ListOf` loop. -/
theorem listOfLoopIdem (S : PredSem F) (check : PyObj F)
    (hplain : plainB check = true) (xs : List (PyObj F))
    (path : String) (i : Nat)
    (h1 : (listOfLoop S false check xs path i).2 = []) :
    listOfLoop S false check (listOfLoop S false check xs path i).1 path i
      = ((listOfLoop S false check xs path i).1, []) := by
  cases xs with
  | nil =>
    rw [listOfLoop.eq_def]
    rw [listOfLoop.eq_def]
  | cons x xs' =>
    rw [listOfLoop.eq_def] at h1 ⊢
    simp only [] at h1 ⊢
    rcases List.append_eq_nil.mp h1 with ⟨hr, hrest⟩
    have he := subIdem S check hplain x
      (path ++ "[" ++ toString i ++ "]") hr
    have hrec := listOfLoopIdem S check hplain xs' path (i + 1) hrest
    rw [listOfLoop.eq_def]
    simp only []
    rw [he] at *
    rw [hrec]
    simp [hr]
termination_by (sizeOf check, 3 + xs.length)
decreasing_by all_goals (subst_vars; decreasing_tactic)

/-- Idempotence of the field loop's rebuilt entries and diagnostics:
revalidating the rebuilt mapping reproduces it exactly and appends
nothing. -/
theorem dictOutIdem (S : PredSem F)
    (fields2 : List (PyObj F × PyObj F))
    (hpf : plainFieldsB fields2 = true) (ss : List String)
    (hks : keyStrs? fields2 = some ss)
    (okv O : List (PyObj F × PyObj F)) (path : String)
    (HL : ∀ f ∈ fields2, ∀ s, (unwrapOpt f.1).1 = .vstr s →
      pyLookup O (.vstr s) = (pyLookup okv (.vstr s)).map
        (fun v => (sub S false v f.2 (path ++ "." ++ s)).1))
    (HD : dictDiags S false fields2 okv path = []) :
    dictOut S false fields2 O path = dictOut S false fields2 okv path ∧
    dictDiags S false fields2 O path = [] := by
  cases fields2 with
  | nil =>
    rw [dictOut, dictOut, dictDiags]
    exact ⟨rfl, rfl⟩
  | cons f0 rest =>
    cases hf0 : f0 with
    | mk expk expv =>
    rw [hf0] at hpf hks HL HD
    rw [plainFieldsB, Bool.and_eq_true] at hpf
    rw [keyStrs?] at hks
    cases hkk : (unwrapOpt expk).1 <;> simp only [hkk] at hks <;>
      try exact Option.noConfusion hks
    case vstr s =>
    rcases hr : keyStrs? rest with _ | ss' <;> simp only [hr] at hks
    · exact Option.noConfusion hks
    have HLh := HL (expk, expv) (List.mem_cons_self _ _) s hkk
    have HLr : ∀ f ∈ rest, ∀ s', (unwrapOpt f.1).1 = .vstr s' →
        pyLookup O (.vstr s') = (pyLookup okv (.vstr s')).map
          (fun v => (sub S false v f.2 (path ++ "." ++ s')).1) :=
      fun f hf s' hs' => HL f (List.mem_cons_of_mem _ hf) s' hs'
    rw [dictDiags] at HD
    simp only [hkk] at HD
    rcases hl : pyLookup okv (PyObj.vstr s) with _ | v <;>
      simp only [hl] at HD HLh
    · have hsplit := List.append_eq_nil.mp HD
      have hmand : (unwrapOpt expk).2 = false := by
        cases hm : (unwrapOpt expk).2
        · rfl
        · rw [hm] at hsplit
          simp at hsplit
      have hrec := dictOutIdem S rest hpf.2 ss' hr okv O path HLr
        hsplit.2
      constructor
      · rw [dictOut, dictOut]
        simp only [hkk, hl, HLh, Option.map_none', hrec.1]
      · rw [dictDiags]
        simp only [hkk, HLh, Option.map_none', hmand, hrec.2]
        simp
    · have hsplit := List.append_eq_nil.mp HD
      have hrec := dictOutIdem S rest hpf.2 ss' hr okv O path HLr
        hsplit.2
      have hidem := subIdem S expv hpf.1 v (path ++ "." ++ s) hsplit.1
      constructor
      · rw [dictOut, dictOut]
        simp only [hkk, hl, HLh]
        simp only [Option.map_some']
        rw [hidem, hrec.1]
      · rw [dictDiags]
        simp only [hkk, HLh, Option.map_some']
        rw [hidem, hrec.2]
        simp
termination_by (sizeOf fields2, 3)
decreasing_by all_goals (subst_vars; decreasing_tactic)

end

/-- C5 counterexample: validation is not idempotent on its own
successful output.  With the schema `{ 'age' : lambda n : ForceValue( n*2 ) }`
from the source's documentation samples, validating `{ 'age': 44 }`
succeeds with output `{ 'age': 88 }`, but re-validating that output
again succeeds with output `{ 'age': 176 }`, which is not structurally
equal (not Python-`==` equal, and not equal) to `{ 'age': 88 }`. -/
theorem validate_not_idempotent :
    validate demoSem (.vdict [(.vstr "age", .vint 44)])
        (.vdict [(.vstr "age", .vfunc .double)]) false
      = (.vdict [(.vstr "age", .vint 88)], []) ∧
    validate demoSem (.vdict [(.vstr "age", .vint 88)])
        (.vdict [(.vstr "age", .vfunc .double)]) false
      = (.vdict [(.vstr "age", .vint 176)], []) ∧
    pyEq (PyObj.vdict (F := DemoF) [(.vstr "age", .vint 176)])
      (.vdict [(.vstr "age", .vint 88)]) = false ∧
    PyObj.vdict (F := DemoF) [(.vstr "age", .vint 176)]
      ≠ .vdict [(.vstr "age", .vint 88)] := by
  refine ⟨?_, ?_, ?_, ?_⟩
  · simp [validate, sub.eq_def, subBody.eq_def, dictLoop.eq_def, pyEq,
      pyEqList, pyDictLe, pyLookupEq, pyNum?, pyLookup, pyMemB,
      dictInsert, unwrapOpt, demoSem]
  · simp [validate, sub.eq_def, subBody.eq_def, dictLoop.eq_def, pyEq,
      pyEqList, pyDictLe, pyLookupEq, pyNum?, pyLookup, pyMemB,
      dictInsert, unwrapOpt, demoSem]
  · simp [pyEq, pyDictLe, pyLookupEq, pyNum?]
  · simp

/-- C5 amended: validation is idempotent on its own successful output
for plain descriptors under the default (reject) extra-keys policy: a
descriptor containing no predicate, no `Or` and no `And` node, whose
every mapping node has pairwise-distinct string keys after unwrapping
`Optional`.  For every value `v` and such a descriptor `d`, if
`validate( v,d )` returns `(o, no diagnostics)`, then `validate( o,d )`
returns `(o, no diagnostics)` — the output is reproduced exactly. -/
theorem validate_idempotent_plain (S : PredSem F) (v d o : PyObj F)
    (hplain : plainB d = true)
    (h : validate S v d false = (o, [])) :
    validate S o d false = (o, []) := by
  have hv : sub S false v d "" = (o, []) := h
  have h2 := subIdem S d hplain v "" (by rw [hv])
  rw [hv] at h2
  exact h2

/-- Witness for C5 amended at a concrete input: the plain schema
`{ 'a' : float }` maps `{ 'a': 41 }` to `{ 'a': 41.0 }` with no
diagnostics, and re-validating `{ 'a': 41.0 }` reproduces it exactly
with no diagnostics. -/
theorem validate_idempotent_plain_witness :
    validate demoSem (.vdict [(.vstr "a", .vfloat 41)])
        (.vdict [(.vstr "a", .vtype .floatT)]) false
      = (.vdict [(.vstr "a", .vfloat 41)], []) ∧
    validate demoSem (.vdict [(.vstr "a", .vint 41)])
        (.vdict [(.vstr "a", .vtype .floatT)]) false
      = (.vdict [(.vstr "a", .vfloat 41)], []) := by
  have h : validate demoSem (.vdict [(.vstr "a", .vint 41)])
      (.vdict [(.vstr "a", .vtype .floatT)]) false
      = (.vdict [(.vstr "a", .vfloat 41)], []) := by
    simp [validate, sub.eq_def, subBody.eq_def, dictLoop.eq_def, pyEq,
      pyEqList, pyDictLe, pyLookupEq, pyNum?, pyLookup, pyMemB,
      dictInsert, unwrapOpt, pyTypeOf, pyFloatOfInt]
  refine ⟨?_, h⟩
  exact validate_idempotent_plain demoSem
    (.vdict [(.vstr "a", .vint 41)]) (.vdict [(.vstr "a", .vtype .floatT)])
    (.vdict [(.vstr "a", .vfloat 41)])
    (by simp [plainB, plainFieldsB, keyStrs?, strDistinct, unwrapOpt]) h
